import Mathlib

/-!
Verification of the NTFS parser (tap-plugin-ntfs) against its specification.
Shallow embedding of the Rust sources under `src/`: byte streams are `List Nat`
(each element a byte value, reduced mod 256 where the machine width matters),
fallible code returns `Except NtfsErr`, and the `tap` crate's virtual-file
layer (an external collaborator, spec section 4.1 / section 6) is modelled from the
spec where noted.
-/

set_option maxRecDepth 131072

namespace NtfsProof

/-- Little-endian value of a byte list (each byte taken mod 256).
Embeds byteorder's `LittleEndian::read_uNN` over a fixed-width slice. -/
def leNat : List Nat → Nat
  | [] => 0
  | b :: bs => b % 256 + 256 * leNat bs

/-- `pad_u64` (src/attributecontent.rs lines 13-20): zero-extend up to 8
little-endian bytes to a 64-bit unsigned value. -/
def padU64 (data : List Nat) : Nat := leNat data

/-- `pad_i64` (src/attributecontent.rs lines 22-33): sign-extend up to 8
little-endian bytes (pad with 0xff when the top bit of the last byte is set,
then read as a two's-complement i64). -/
def padI64 (data : List Nat) : Int :=
  if 128 ≤ data.getLastD 0 % 256 then
    (leNat data : Int) - 2 ^ (8 * data.length)
  else
    (leNat data : Int)

/-- One data run (`RunList`, src/attributecontent.rs lines 169-174):
`offset` is a logical cluster number (0 denotes a sparse hole),
`length` a cluster count. -/
structure Run where
  offset : Int
  length : Nat
deriving DecidableEq, Repr

/-- Error kinds (src/error.rs).  `ioError` stands for the `std::io` read
failures that `anyhow` mixes in; boot-sector field names are an enum here. -/
inductive BootField
  | endOfSector | bytesPerSector | sectorPerCluster | totalSectors
  | mftClusterNumber | clustersPerMftRecord | clustersPerIndexRecord
deriving DecidableEq, Repr

inductive NtfsErr
  | mftRecordSize
  | nonResidentData
  | bootSectorInvalid (f : BootField)
  | mftUnusedEntry
  | mftInvalidSignature
  | mftAttributeNotFound
  | mftAttributeUnknownType (raw : Nat)
  | mftAttributesEnd
  | mftAttributeDataType
  | mftAttributeUnknownNameSpace (raw : Nat)
  | mftAttributeNameSpaceInvalidSize
  | mftAttributeStandardInvalidSize
  | mftAttributeListEnd
  | residentAttributeOffsetTooLarge
  | residentAttributeContentTooLarge
  | nonResidentAttributeOffsetTooLarge
  | nonResidentAttributeZeroBuilder
  | nonResidentAttributeClusterSize
  | ioError
deriving DecidableEq, Repr

/-- Decidable equality of parse results, so concrete runs of the embedded
code can be checked by `decide`. -/
instance {ε α : Type} [DecidableEq ε] [DecidableEq α] : DecidableEq (Except ε α) :=
  fun a b =>
    match a, b with
    | .error e, .error f =>
      if h : e = f then isTrue (by rw [h])
      else isFalse (by intro hh; injection hh; exact h (by assumption))
    | .error _, .ok _ => isFalse (by intro hh; exact Except.noConfusion hh)
    | .ok _, .error _ => isFalse (by intro hh; exact Except.noConfusion hh)
    | .ok x, .ok y =>
      if h : x = y then isTrue (by rw [h])
      else isFalse (by intro hh; injection hh; exact h (by assumption))

/-- The run-list decoding loop of `NonResident::from_file`
(src/attributecontent.rs lines 211-265), reading from the byte stream that
starts at the run list.  Each header byte holds the length-size nibble L (low)
and offset-size nibble O (high); the loop ends on O > 8, L > 8, L = 0 or a
zero run length; L little-endian bytes give the length, O little-endian
sign-extended bytes the offset delta; `run_previous_offset` accumulates the
delta and a run whose decoded delta is zero is recorded with offset 0.
Reading past the end of the stream is a `read_exact` failure that aborts the
whole parse.  The fuel argument only bounds the recursion: every iteration
consumes at least one byte, so fuel `bytes.length` is never exhausted. -/
def decodeRunsFuel : Nat → List Nat → Int → Except NtfsErr (List Run)
  | _, [], _ => .error .ioError
  | 0, _ :: _, _ => .error .ioError
  | fuel + 1, header :: rest, acc =>
    if header % 256 / 16 > 8 then .ok []
    else if header % 16 > 8 then .ok []
    else if header % 16 = 0 then .ok []
    else if rest.length < header % 16 + header % 256 / 16 then .error .ioError
    else if padU64 (rest.take (header % 16)) = 0 then .ok []
    else
      match decodeRunsFuel fuel ((rest.drop (header % 16)).drop (header % 256 / 16))
          (acc + (if header % 256 / 16 = 0 then 0
                  else padI64 ((rest.drop (header % 16)).take (header % 256 / 16)))) with
      | .error e => .error e
      | .ok runs =>
        .ok ((if (if header % 256 / 16 = 0 then (0 : Int)
                  else padI64 ((rest.drop (header % 16)).take (header % 256 / 16))) = 0 then
                Run.mk 0 (padU64 (rest.take (header % 16)))
              else
                Run.mk (acc + (if header % 256 / 16 = 0 then 0
                               else padI64 ((rest.drop (header % 16)).take (header % 256 / 16))))
                  (padU64 (rest.take (header % 16)))) :: runs)

/-- Run-list decoding from a byte stream with accumulator `acc`
(`run_previous_offset`, initially 0 at the call site). -/
def decodeRuns (bytes : List Nat) (acc : Int) : Except NtfsErr (List Run) :=
  decodeRunsFuel bytes.length bytes acc

/-- `Bitmap::new` inner state: (cluster_start, cluster_end, current_cluster)
and the accumulated list of pushed ranges (src/attributes/bitmap.rs lines
25-27). The pushed Rust `Range` values are kept as (start, end) pairs. -/
def bitmapStep (st : (Nat × Nat × Nat) × List (Nat × Nat)) (bit : Bool) :
    (Nat × Nat × Nat) × List (Nat × Nat) :=
  match st with
  | ((clusterStart, clusterEnd, current), out) =>
    if bit then
      if clusterStart ≠ 0 then ((0, 0, current + 1), out ++ [(clusterStart, clusterEnd)])
      else ((clusterStart, clusterEnd, current + 1), out)
    else
      if clusterStart = 0 then ((current, current, current + 1), out)
      else ((clusterStart, current, current + 1), out)

/-- The eight bits of a byte, LSB first (`(byte >> i) & 1 != 0`). -/
def bitmapBits (byte : Nat) : List Bool :=
  (List.range 8).map (fun i => byte % 256 / 2 ^ i % 2 = 1)

/-- `Bitmap::new` (src/attributes/bitmap.rs lines 16-56): scan the bitmap
bytes LSB-first and collect the ranges the source pushes.  (The source's
`open`/`read_exact` of the content stream is modelled as the given byte
list; spec section 4.1 reads within the stream size succeed.) -/
def bitmapNew (bytes : List Nat) : List (Nat × Nat) :=
  (bytes.foldl (fun st b => (bitmapBits b).foldl bitmapStep st) ((0, 0, 0), [])).2

/-- Read `n` bytes at position `pos` through a byte-level reader
(`read_exact` semantics: fails when any byte is unavailable). -/
def readExactAt (read : Nat → Option Nat) (pos n : Nat) : Option (List Nat) :=
  (List.range n).mapM (fun k => read (pos + k))

/-- Read `n` bytes at `pos` from a plain byte list (a VFile over a buffer). -/
def readN (bytes : List Nat) (pos n : Nat) : Except NtfsErr (List Nat) :=
  if pos + n ≤ bytes.length then .ok ((bytes.drop pos).take n) else .error .ioError

/-- Mask of the known `FileAttributes` bits (src/attributes/mod.rs):
`from_bits_truncate` keeps exactly these bits. -/
def fileAttributesTruncate (raw : Nat) : Nat := raw &&& 0x7FF7

/-- `StandardInformation` (src/attributes/standard.rs).  The four timestamps
are kept as raw 64-bit FILETIME values: `WindowsTimestamp::to_datetime` is
the external `tap`/chrono conversion (spec section 4.7 calls it a plain
representation change). -/
structure StdInfo where
  creationTime : Nat
  alteredTime : Nat
  mftAlteredTime : Nat
  accessedTime : Nat
  flags : Nat
  versionMaximumNumber : Nat
  versionNumber : Nat
  classId : Nat
  ownerId : Option Nat
  securityId : Option Nat
  quotaCharged : Option Nat
  usn : Option Nat
deriving DecidableEq, Repr

/-- `StandardInformation::new` (src/attributes/standard.rs lines 42-107) over
the content stream: `size` is `content.size()`, `read` the stream's
byte-level reader.  Note the source's size guard is literally
`size < 48 && size != 72`. -/
def standardInformationNew (size : Nat) (read : Nat → Option Nat) :
    Except NtfsErr StdInfo :=
  if size < 48 ∧ size ≠ 72 then .error .mftAttributeStandardInvalidSize
  else
    match readExactAt read 0 48 with
    | none => .error .ioError
    | some data =>
      if size = 72 then
        match readExactAt read 48 24 with
        | none => .error .ioError
        | some data2 =>
          .ok { creationTime := leNat (data.take 8)
                alteredTime := leNat ((data.drop 8).take 8)
                mftAlteredTime := leNat ((data.drop 16).take 8)
                accessedTime := leNat ((data.drop 24).take 8)
                flags := fileAttributesTruncate (leNat ((data.drop 32).take 4))
                versionMaximumNumber := leNat ((data.drop 36).take 4)
                versionNumber := leNat ((data.drop 40).take 4)
                classId := leNat ((data.drop 44).take 4)
                ownerId := some (leNat (data2.take 4))
                securityId := some (leNat ((data2.drop 4).take 4))
                quotaCharged := some (leNat ((data2.drop 8).take 8))
                usn := some (leNat ((data2.drop 16).take 8)) }
      else
        .ok { creationTime := leNat (data.take 8)
              alteredTime := leNat ((data.drop 8).take 8)
              mftAlteredTime := leNat ((data.drop 16).take 8)
              accessedTime := leNat ((data.drop 24).take 8)
              flags := fileAttributesTruncate (leNat ((data.drop 32).take 4))
              versionMaximumNumber := leNat ((data.drop 36).take 4)
              versionNumber := leNat ((data.drop 40).take 4)
              classId := leNat ((data.drop 44).take 4)
              ownerId := none
              securityId := none
              quotaCharged := none
              usn := none }

/-- The source a pushed file range draws from: the MFT builder (raw MFT or
partition, used by `to_builder`), the entry's fixed-up VF (resident content),
the partition VF (non-resident runs) or the zero VF (sparse runs). -/
inductive SrcTag
  | mft | entry | partition | zero
deriving DecidableEq, Repr

/-- One range pushed into tap's `FileRanges`: dst byte interval
[dstStart, dstEnd) of the mapped VF, drawn from `src` starting at `srcOff`. -/
structure FRange where
  dstStart : Nat
  dstEnd : Nat
  srcOff : Nat
  src : SrcTag
deriving DecidableEq, Repr

/-- Modelled from the spec (section 4.1): the size a `MappedVFileBuilder` reports
for an ordered, contiguous range list is the end of its last range. -/
def mappedSize (ranges : List FRange) : Nat :=
  ((ranges.getLast?).map FRange.dstEnd).getD 0

/-- Modelled from the spec (section 4.1): a read of the mapped VF at position `p`
routes to the range containing `p` and translates to `srcOff + (p − dstStart)`
in that range's source; a position in no range is unreadable. -/
def mappedReadByte (ranges : List FRange) (readSrc : SrcTag → Nat → Option Nat)
    (p : Nat) : Option Nat :=
  match ranges.find? (fun r => r.dstStart ≤ p ∧ p < r.dstEnd) with
  | none => none
  | some r => readSrc r.src (r.srcOff + (p - r.dstStart))

/-- Modelled from the spec (section 4.1): the memory builder eagerly reads the whole
source VF into a buffer (`MemoryVFileBuilder::new`); it fails when any byte
of [0, size) is unreadable. -/
def slurp (ranges : List FRange) (readSrc : SrcTag → Nat → Option Nat) :
    Option (List Nat) :=
  (List.range (mappedSize ranges)).mapM (mappedReadByte ranges readSrc)

/-- `Resident` body (src/attributecontent.rs lines 149-167). -/
structure Resident where
  contentSize : Nat
  contentOffset : Nat
deriving DecidableEq, Repr

/-- `Resident::from_file`: 6 bytes at the current cursor. -/
def residentFromFile (bytes : List Nat) (cursor : Nat) : Except NtfsErr Resident :=
  match readN bytes cursor 6 with
  | .error e => .error e
  | .ok data => .ok ⟨leNat (data.take 4), leNat ((data.drop 4).take 2)⟩

/-- `NonResident` body (src/attributecontent.rs lines 176-188). -/
structure NonResident where
  vncStart : Nat
  vncEnd : Nat
  runListOffset : Nat
  compressionBlockSize : Nat
  unused : Nat
  contentAllocatedSize : Nat
  contentActualSize : Nat
  contentInitializedSize : Nat
  runs : List Run
deriving DecidableEq, Repr

/-- `NonResident::from_file` (src/attributecontent.rs lines 190-279): read the
48-byte body at the current cursor, then seek to `offset + run_list_offset`
(absolute in the entry stream `bytes`) and decode the run list with the
accumulator starting at 0. -/
def nonResidentFromFile (bytes : List Nat) (offset cursor : Nat) :
    Except NtfsErr NonResident :=
  match readN bytes cursor 48 with
  | .error e => .error e
  | .ok data =>
    match decodeRuns (bytes.drop (offset + leNat ((data.drop 16).take 2))) 0 with
    | .error e => .error e
    | .ok runs =>
      .ok { vncStart := leNat (data.take 8)
            vncEnd := leNat ((data.drop 8).take 8)
            runListOffset := leNat ((data.drop 16).take 2)
            compressionBlockSize := leNat ((data.drop 18).take 2)
            unused := leNat ((data.drop 20).take 4)
            contentAllocatedSize := leNat ((data.drop 24).take 8)
            contentActualSize := leNat ((data.drop 32).take 8)
            contentInitializedSize := leNat ((data.drop 40).take 8)
            runs := runs }

/-- `MftAttributeContent::resident_builder` (src/attributecontent.rs lines
74-93): a single range over the entry's fixed-up VF; `entrySize` is
`mft_entry_builder.size()`, `offset` the attribute's start offset. -/
def residentBuilder (offset : Nat) (r : Resident) (entrySize : Nat) :
    Except NtfsErr (List FRange) :=
  if offset + r.contentOffset > entrySize then
    .error .residentAttributeOffsetTooLarge
  else if offset + r.contentOffset + r.contentSize > entrySize then
    .error .residentAttributeContentTooLarge
  else
    .ok [⟨0, r.contentSize, offset + r.contentOffset, .entry⟩]

/-- The run loop of `MftAttributeContent::non_resident_builder`
(src/attributecontent.rs lines 109-134): `total` is the running dst cursor
`total_size`; a run with offset 0 is drawn from the zero builder, any other
from the partition at `offset·cluster_size` (`run.offset as u64` is the
two's-complement reinterpretation), rejected when that start exceeds the
partition size. -/
def nonResidentRanges (cs psize : Nat) : List Run → Nat → Except NtfsErr (List FRange)
  | [], _ => .ok []
  | r :: rs, total =>
    if r.offset = 0 then
      match nonResidentRanges cs psize rs (total + r.length * cs) with
      | .error e => .error e
      | .ok out => .ok (⟨total, total + r.length * cs, 0, .zero⟩ :: out)
    else
      if (r.offset.emod (2 ^ 64)).toNat * cs > psize then
        .error .nonResidentAttributeOffsetTooLarge
      else
        match nonResidentRanges cs psize rs (total + r.length * cs) with
        | .error e => .error e
        | .ok out =>
          .ok (⟨total, total + r.length * cs, (r.offset.emod (2 ^ 64)).toNat * cs,
                .partition⟩ :: out)

/-- `MftAttributeContent::non_resident_builder` (src/attributecontent.rs lines
95-136): requires the zero builder and the cluster size, then maps the runs
starting from dst cursor `vnc_start · cluster_size`. -/
def nonResidentBuilder (nr : NonResident) (zeroPresent : Bool)
    (clusterSize? : Option Nat) (psize : Nat) : Except NtfsErr (List FRange) :=
  if ¬ zeroPresent then .error .nonResidentAttributeZeroBuilder
  else
    match clusterSize? with
    | none => .error .nonResidentAttributeClusterSize
    | some cs => nonResidentRanges cs psize nr.runs (nr.vncStart * cs)

/-- `freespace_builder` (src/unallocated.rs lines 9-27): concatenate the
bitmap's ranges against the partition, each range (start, end) read as
inclusive: src offset `start·cluster_size`, length
`(1 + end − start)·cluster_size`.  (`Bitmap::new(builder).unwrap()` reads the
whole stream; spec section 4.1 reads within the stream succeed, so the unwrap is
total here and the stream is the given byte list.) -/
def freespaceRangesLoop (cs : Nat) : List (Nat × Nat) → Nat → List FRange
  | [], _ => []
  | (s, e) :: rest, current =>
    ⟨current, current + (1 + e - s) * cs, s * cs, .partition⟩ ::
      freespaceRangesLoop cs rest (current + (1 + e - s) * cs)

def freespaceBuilder (bitmapBytes : List Nat) (clusterSize : Nat) : List FRange :=
  freespaceRangesLoop clusterSize (bitmapNew bitmapBytes) 0

/-- `NtfsAttributeType` (src/ntfsattributes.rs lines 10-27). -/
inductive NtfsAttributeType
  | standardInformation | attributeList | fileName | objectId | securityDescriptor
  | volumeName | volumeInformation | data | indexRoot | indexAllocation | bitmap
  | reparsePoint | eaInformation | ea | properySet | loggedUtilityStream
deriving DecidableEq, Repr

/-- `NtfsAttributeType::from_u32`: unknown raw values are rejected. -/
def ntfsAttributeTypeFromU32 (n : Nat) : Option NtfsAttributeType :=
  if n = 16 then some .standardInformation
  else if n = 32 then some .attributeList
  else if n = 48 then some .fileName
  else if n = 64 then some .objectId
  else if n = 80 then some .securityDescriptor
  else if n = 96 then some .volumeName
  else if n = 112 then some .volumeInformation
  else if n = 128 then some .data
  else if n = 144 then some .indexRoot
  else if n = 160 then some .indexAllocation
  else if n = 176 then some .bitmap
  else if n = 192 then some .reparsePoint
  else if n = 208 then some .eaInformation
  else if n = 224 then some .ea
  else if n = 240 then some .properySet
  else if n = 246 then some .loggedUtilityStream
  else none

/-- `ResidentType` (src/attributecontent.rs lines 139-144). -/
inductive ResidentType
  | resident (r : Resident)
  | nonResident (nr : NonResident)
deriving DecidableEq, Repr

/-- `MftAttribute` (src/attribute.rs lines 14-26); the optional UTF-16LE name
is kept as its raw bytes (`read_utf16_exact` reads `name_size * 2` bytes). -/
structure MftAttribute where
  typeId : NtfsAttributeType
  length : Nat
  nonResidentFlag : Nat
  nameSize : Nat
  nameOffset : Nat
  flags : Nat
  id : Nat
  name : Option (List Nat)
  data : ResidentType
deriving DecidableEq, Repr

/-- `MftAttribute::from_file` (src/attribute.rs lines 29-79): 16-byte common
header at `offset` in the entry stream, sentinel type 0xffffffff, unknown
types rejected, then the resident (flag 0) or non-resident (flag 1) body at
the cursor `offset + 16`, then the optional name at `offset + name_offset`. -/
def mftAttributeFromFile (bytes : List Nat) (offset : Nat) :
    Except NtfsErr MftAttribute :=
  match readN bytes offset 16 with
  | .error e => .error e
  | .ok data =>
    if leNat (data.take 4) = 0xffffffff then .error .mftAttributesEnd
    else
      match ntfsAttributeTypeFromU32 (leNat (data.take 4)) with
      | none => .error (.mftAttributeUnknownType (leNat (data.take 4)))
      | some tid =>
        match (match data.getD 8 0 % 256 with
               | 0 => (residentFromFile bytes (offset + 16)).map ResidentType.resident
               | 1 => (nonResidentFromFile bytes offset (offset + 16)).map ResidentType.nonResident
               | _ => .error .mftAttributeDataType) with
        | .error e => .error e
        | .ok body =>
          match (if data.getD 9 0 % 256 = 0 then
                   (.ok none : Except NtfsErr (Option (List Nat)))
                 else
                   (readN bytes (offset + leNat ((data.drop 10).take 2))
                      ((data.getD 9 0 % 256) * 2)).map some) with
          | .error e => .error e
          | .ok name =>
            .ok { typeId := tid
                  length := leNat ((data.drop 4).take 4)
                  nonResidentFlag := data.getD 8 0 % 256
                  nameSize := data.getD 9 0 % 256
                  nameOffset := leNat ((data.drop 10).take 2)
                  flags := leNat ((data.drop 12).take 2)
                  id := leNat ((data.drop 14).take 2)
                  name := name
                  data := body }

/-- An `MftAttributeContent` (src/attributecontent.rs lines 35-44) stripped of
its builder handles: the attribute's start offset and parsed header; the
entry/partition/zero/cluster context travels separately as `EntryCtx`. -/
structure ContentM where
  offset : Nat
  mftAttribute : MftAttribute
deriving DecidableEq, Repr

/-- `MftEntry` (src/mftentry.rs lines 29-52) without its builder handles. -/
structure MftEntryM where
  offset : Nat
  recordSize : Nat
  signature : Nat
  fixupArrayOffset : Nat
  fixupArrayEntryCount : Nat
  lsn : Nat
  sequence : Nat
  linkCount : Nat
  firstAttributeOffset : Nat
  flags : Nat
  usedSize : Nat
  allocatedSize : Nat
  fileReferenceId : Nat
  fileReferenceSequence : Nat
  nextAttributeId : Nat
  sectorSize : Nat
deriving DecidableEq, Repr

/-- `MftEntry::from_offset` (src/mftentry.rs lines 56-127): read the 42-byte
record header at `offset` of the MFT stream; `used_size == 0xffffffff` is the
unused-entry error; the raw fixup count is decremented when positive; no
signature check is performed. -/
def mftEntryFromOffset (mftBytes : List Nat) (offset recordSize sectorSize : Nat) :
    Except NtfsErr MftEntryM :=
  match readN mftBytes offset 42 with
  | .error e => .error e
  | .ok data =>
    if leNat ((data.drop 24).take 4) = 0xffffffff then .error .mftUnusedEntry
    else
      .ok { offset := offset
            recordSize := recordSize
            signature := leNat (data.take 4)
            fixupArrayOffset := leNat ((data.drop 4).take 2)
            fixupArrayEntryCount :=
              if leNat ((data.drop 6).take 2) > 0 then leNat ((data.drop 6).take 2) - 1
              else leNat ((data.drop 6).take 2)
            lsn := leNat ((data.drop 8).take 8)
            sequence := leNat ((data.drop 16).take 2)
            linkCount := leNat ((data.drop 18).take 2)
            firstAttributeOffset := leNat ((data.drop 20).take 2)
            flags := leNat ((data.drop 22).take 2)
            usedSize := leNat ((data.drop 24).take 4)
            allocatedSize := leNat ((data.drop 28).take 4)
            fileReferenceId := padU64 ((data.drop 32).take 6)
            fileReferenceSequence := leNat ((data.drop 38).take 2)
            nextAttributeId := leNat ((data.drop 40).take 2)
            sectorSize := sectorSize }

/-- `MftEntry::is_valid` (src/mftentry.rs lines 246-249), as written:
`signature != FILE && signature != BAAD`. -/
def MftEntryM.isValid (e : MftEntryM) : Bool :=
  e.signature ≠ 0x454C4946 && e.signature ≠ 0x44414142

/-- `MftEntry::is_used` (src/mftentry.rs lines 251-254). -/
def MftEntryM.isUsed (e : MftEntryM) : Bool :=
  e.flags % 2 = 1

/-- The stride loop of `MftEntry::to_builder` (src/mftentry.rs lines 261-293):
per full sector push [off, off + sector−2) from the raw MFT at the entry's
offset, then the two trailer bytes from the fixup array (entry k of the
update-sequence array, skipping its first element); a final partial stride
pushes the range `offset..(size − offset)` exactly as written in the source.
Fuel only bounds the loop (each iteration advances the cursor; a sector size
below 2 would already panic in the source's u64 subtraction). -/
def toBuilderLoop (e : MftEntryM) : Nat → Nat → List FRange
  | 0, _ => []
  | fuel + 1, offset =>
    if offset < e.recordSize then
      if e.recordSize - offset ≥ e.sectorSize then
        ⟨offset, offset + (e.sectorSize - 2), e.offset + offset, .mft⟩ ::
        ⟨offset + (e.sectorSize - 2), offset + (e.sectorSize - 2) + 2,
          e.offset + e.fixupArrayOffset + 2 +
            2 * ((offset + (e.sectorSize - 2)) / e.sectorSize), .mft⟩ ::
        toBuilderLoop e fuel (offset + (e.sectorSize - 2) + 2)
      else
        ⟨offset, e.recordSize - offset, e.offset + offset, .mft⟩ ::
        toBuilderLoop e fuel (offset + (e.recordSize - offset))
    else []

def toBuilder (e : MftEntryM) : List FRange :=
  toBuilderLoop e (e.recordSize + 2) 0

/-- The entry's fixed-up VF view, materialized (spec section 4.1 memory/mapped
read semantics over the raw MFT stream `mftBytes`). -/
def entryRecordBytes (mftBytes : List Nat) (e : MftEntryM) : Option (List Nat) :=
  slurp (toBuilder e) (fun _ p => mftBytes.get? p)

/-- The shared builder context an `MftAttributeContent` captures: the raw MFT
stream, the entry's fixed-up bytes and size, and the optional partition /
zero / cluster-size collaborators. -/
structure EntryCtx where
  mftSrc : List Nat
  entryBytes? : Option (List Nat)
  entrySize : Nat
  partition? : Option (List Nat)
  zeroPresent : Bool
  clusterSize? : Option Nat
deriving DecidableEq, Repr

/-- Byte-level reader of each source VF under a context (spec section 4.1: the
zero builder reads 0 everywhere; buffer sources fail past their end). -/
def ctxReadSrc (ctx : EntryCtx) : SrcTag → Nat → Option Nat
  | .mft, p => ctx.mftSrc.get? p
  | .entry, p => ctx.entryBytes?.bind (fun b => b.get? p)
  | .partition, p => ctx.partition?.bind (fun b => b.get? p)
  | .zero, _ => some 0

/-- `MftAttributeContent::builder` (src/attributecontent.rs lines 60-72):
resident content maps into the entry VF, non-resident content requires the
partition builder. -/
def builderOf (ctx : EntryCtx) (c : ContentM) : Except NtfsErr (List FRange) :=
  match c.mftAttribute.data with
  | .resident r => residentBuilder c.offset r ctx.entrySize
  | .nonResident nr =>
    match ctx.partition? with
    | some p => nonResidentBuilder nr ctx.zeroPresent ctx.clusterSize? p.length
    | none => .error .nonResidentData

/-- The attribute iteration of `MftEntry::contents` (src/mftentry.rs lines
129-159): walk from `first_attribute_offset` while below `used_size`,
stopping at the first parse error; a zero attribute length ends the loop
after pushing.  Fuel bounds the loop: each continuing iteration advances the
offset by the attribute's nonzero length. -/
def contentsLoop (recBytes : List Nat) (usedSize : Nat) : Nat → Nat → List ContentM
  | 0, _ => []
  | fuel + 1, offset =>
    if offset < usedSize then
      match mftAttributeFromFile recBytes offset with
      | .error _ => []
      | .ok attr =>
        ⟨offset, attr⟩ ::
          (if attr.length = 0 then []
           else contentsLoop recBytes usedSize fuel (offset + attr.length))
    else []

/-- `MftEntry::contents` against a context: an unreadable record view yields
no contents (the source's reads fail and the loop breaks). -/
def contentsOf (e : MftEntryM) (ctx : EntryCtx) : List ContentM :=
  match ctx.entryBytes? with
  | none => []
  | some rb => contentsLoop rb e.usedSize (e.usedSize + 1) e.firstAttributeOffset

/-- `AttributeListItem` (src/attributes/list.rs lines 16-28). -/
structure AttributeListItem where
  name : Option (List Nat)
  typeId : NtfsAttributeType
  size : Nat
  nameSize : Nat
  nameOffset : Nat
  vncStart : Nat
  mftEntryId : Nat
  sequence : Nat
  id : Nat
deriving DecidableEq, Repr

/-- `AttributeListItem::new` (src/attributes/list.rs lines 32-77): a 26-byte
record at the cursor `pos`; sentinel type 0xffffffff; the optional name is
read at the absolute stream position `name_offset` (as in the source). -/
def attributeListItemNew (read : Nat → Option Nat) (pos : Nat) :
    Except NtfsErr AttributeListItem :=
  match readExactAt read pos 26 with
  | none => .error .ioError
  | some data =>
    if leNat (data.take 4) = 0xffffffff then .error .mftAttributeListEnd
    else
      match ntfsAttributeTypeFromU32 (leNat (data.take 4)) with
      | none => .error (.mftAttributeUnknownType (leNat (data.take 4)))
      | some tid =>
        match (if data.getD 6 0 % 256 = 0 then
                 (some none : Option (Option (List Nat)))
               else
                 (readExactAt read (data.getD 7 0 % 256) (data.getD 6 0 % 256)).map some) with
        | none => .error .ioError
        | some name =>
          .ok { name := name
                typeId := tid
                size := leNat ((data.drop 4).take 2)
                nameSize := data.getD 6 0 % 256
                nameOffset := data.getD 7 0 % 256
                vncStart := leNat ((data.drop 8).take 8)
                mftEntryId := padU64 ((data.drop 16).take 6)
                sequence := leNat ((data.drop 22).take 2)
                id := leNat ((data.drop 24).take 2) }

/-- The item loop of `AttributeList::new` (src/attributes/list.rs lines
86-108): while the cursor is below the content size, parse an item, seek to
`previous + item.size`, and stop at the first error.  Fuel bounds the loop
(the source loops forever when an item reports size 0 and the cursor stalls;
such an input never reaches the exhaustion branch in this development). -/
def attributeListLoop (size : Nat) (read : Nat → Option Nat) :
    Nat → Nat → List AttributeListItem
  | 0, _ => []
  | fuel + 1, pos =>
    if pos < size then
      match attributeListItemNew read pos with
      | .error _ => []
      | .ok item => item :: attributeListLoop size read fuel (pos + item.size)
    else []

/-- `AttributeList::new` over a content stream of the given size. -/
def attributeListNew (size : Nat) (read : Nat → Option Nat) :
    List AttributeListItem :=
  attributeListLoop size read (size + 1) 0

/-- `FileName` (src/attributes/filename.rs lines 29-53); timestamps raw, the
namespace kept as its 0..3 raw value, the name as raw UTF-16LE bytes. -/
structure FileNameM where
  fileName : List Nat
  parentMftEntryId : Nat
  parentSequence : Nat
  creationTime : Nat
  modificationTime : Nat
  mftModificationTime : Nat
  accessedTime : Nat
  allocatedSize : Nat
  realSize : Nat
  flags : Nat
  reparseValue : Nat
  nameLength : Nat
  nameSpace : Nat
deriving DecidableEq, Repr

/-- `FileName::new` (src/attributes/filename.rs lines 57-103): 66-byte fixed
part, namespace 0..3, the `(name_length·2) > size − 66` guard, then the name
read from the cursor. -/
def fileNameNew (size : Nat) (read : Nat → Option Nat) : Except NtfsErr FileNameM :=
  match readExactAt read 0 66 with
  | none => .error .ioError
  | some data =>
    if 3 < data.getD 65 0 % 256 then
      .error (.mftAttributeUnknownNameSpace (data.getD 65 0 % 256))
    else if (data.getD 64 0 % 256) * 2 > size - 66 then
      .error .mftAttributeNameSpaceInvalidSize
    else
      match readExactAt read 66 ((data.getD 64 0 % 256) * 2) with
      | none => .error .ioError
      | some name =>
        .ok { fileName := name
              parentMftEntryId := padU64 (data.take 6)
              parentSequence := leNat ((data.drop 6).take 2)
              creationTime := leNat ((data.drop 8).take 8)
              modificationTime := leNat ((data.drop 16).take 8)
              mftModificationTime := leNat ((data.drop 24).take 8)
              accessedTime := leNat ((data.drop 32).take 8)
              allocatedSize := leNat ((data.drop 40).take 8)
              realSize := leNat ((data.drop 48).take 8)
              flags := fileAttributesTruncate (leNat ((data.drop 56).take 4))
              reparseValue := leNat ((data.drop 60).take 4)
              nameLength := data.getD 64 0 % 256
              nameSpace := data.getD 65 0 % 256 }

/-- `VolumeName::new` (src/attributes/volume.rs lines 66-77): the whole
content as raw UTF-16LE bytes. -/
def volumeNameNew (size : Nat) (read : Nat → Option Nat) :
    Except NtfsErr (List Nat) :=
  match readExactAt read 0 size with
  | none => .error .ioError
  | some name => .ok name

/-- `VolumeInformation::new` (src/attributes/volume.rs lines 20-57): major and
minor version bytes at offset 8 (the display string is presentation only). -/
def volumeInformationNew (read : Nat → Option Nat) : Except NtfsErr (Nat × Nat) :=
  match readExactAt read 8 4 with
  | none => .error .ioError
  | some data => .ok (data.getD 0 0 % 256, data.getD 1 0 % 256)

/-- `MftEntries` (src/mft.rs lines 18-29) without builder handles: the cached
MFT bytes, sizes, optional partition / cluster collaborators and the entry
count. -/
structure MftTable where
  mftBytes : List Nat
  recordSize : Nat
  sectorSize : Nat
  clusterSize? : Option Nat
  partition? : Option (List Nat)
  zeroPresent : Bool
  numberOfEntry : Nat
deriving DecidableEq, Repr

/-- `MftEntries::entry` (src/mft.rs lines 115-118). -/
def tableEntry (t : MftTable) (i : Nat) : Except NtfsErr MftEntryM :=
  mftEntryFromOffset t.mftBytes (i * t.recordSize) t.recordSize t.sectorSize

/-- The builder context an entry of the table carries. -/
def ctxOf (t : MftTable) (e : MftEntryM) : EntryCtx :=
  ⟨t.mftBytes, entryRecordBytes t.mftBytes e, mappedSize (toBuilder e),
    t.partition?, t.zeroPresent, t.clusterSize?⟩

/-- `NtfsAttribute` (src/ntfsattributes.rs lines 29-40), restricted to the
variants `content_to_attribute` can produce. -/
inductive NtfsAttr
  | standardInformation (s : StdInfo)
  | fileName (f : FileNameM)
  | data (c : ContentM)
  | volumeName (v : List Nat)
  | volumeInformation (major minor : Nat)
deriving DecidableEq, Repr

/-- `MftEntry::content_to_attribute` (src/mftentry.rs lines 161-219): the
builder is materialized first (a failure yields no attributes); typed
decoders fill the matching arms; an AttributeList, when an entries table is
supplied, follows each item into the referenced entry and recursively decodes
every content whose attribute id matches — the table is passed into the
recursive call exactly as the source passes `Some(mft_entries)`.  The fuel
argument is the recursion depth; `none` marks its exhaustion, i.e. a run of
the source that has not terminated within that depth. -/
def contentToAttribute (t? : Option MftTable) :
    Nat → EntryCtx → ContentM → Option (List NtfsAttr)
  | 0, _, _ => none
  | fuel + 1, ctx, c =>
    match builderOf ctx c with
    | .error _ => some []
    | .ok ranges =>
      match c.mftAttribute.typeId with
      | .standardInformation =>
        some (match standardInformationNew (mappedSize ranges)
                  (mappedReadByte ranges (ctxReadSrc ctx)) with
              | .ok a => [.standardInformation a]
              | .error _ => [])
      | .fileName =>
        some (match fileNameNew (mappedSize ranges)
                  (mappedReadByte ranges (ctxReadSrc ctx)) with
              | .ok a => [.fileName a]
              | .error _ => [])
      | .data => some [.data c]
      | .volumeName =>
        some (match volumeNameNew (mappedSize ranges)
                  (mappedReadByte ranges (ctxReadSrc ctx)) with
              | .ok a => [.volumeName a]
              | .error _ => [])
      | .volumeInformation =>
        some (match volumeInformationNew (mappedReadByte ranges (ctxReadSrc ctx)) with
              | .ok a => [.volumeInformation a.1 a.2]
              | .error _ => [])
      | .attributeList =>
        (attributeListNew (mappedSize ranges) (mappedReadByte ranges (ctxReadSrc ctx))).foldl
          (fun acc item =>
            acc.bind (fun attrs =>
              match t? with
              | none => some attrs
              | some t =>
                match tableEntry t item.mftEntryId with
                | .error _ => some attrs
                | .ok e =>
                  (contentsOf e (ctxOf t e)).foldl
                    (fun acc2 c2 =>
                      acc2.bind (fun attrs2 =>
                        if item.id = c2.mftAttribute.id then
                          (contentToAttribute t? fuel (ctxOf t e) c2).map
                            (fun l => attrs2 ++ l)
                        else some attrs2))
                    (some attrs)))
          (some [])
      | _ => some []

/-- `MftEntry::read_attributes` (src/mftentry.rs lines 222-225): flat-map of
`content_to_attribute` over the entry's contents, with the fuel exhaustion of
any call propagated as `none`. -/
def readAttributes (t? : Option MftTable) (fuel : Nat) (ctx : EntryCtx)
    (cs : List ContentM) : Option (List NtfsAttr) :=
  cs.foldl (fun acc c =>
    acc.bind (fun l => (contentToAttribute t? fuel ctx c).map (fun l2 => l ++ l2)))
    (some [])

/-- `MftEntry::data_attribute` (src/mftentry.rs lines 227-239): the first Data
attribute's stream builder.  With no entries table the AttributeList arm of
`content_to_attribute` contributes nothing and an `NtfsAttribute::Data` is
produced exactly for a Data content whose `builder()` succeeds, so the scan
reduces to the contents themselves; `data.builder()` is recomputed (pure). -/
def dataAttribute (ctx : EntryCtx) : List ContentM → Except NtfsErr (List FRange)
  | [] => .error .mftAttributeNotFound
  | c :: cs =>
    if c.mftAttribute.typeId = .data then
      match builderOf ctx c with
      | .ok r => .ok r
      | .error _ => dataAttribute ctx cs
    else dataAttribute ctx cs

/-- `MftEntries::from_partition` (src/mft.rs lines 33-62): reject a zero
record size, parse entry 0 at `mft_start_cluster · cluster_size` against the
partition, take its Data stream, cache it in memory
(`MemoryVFileBuilder::new`, spec section 4.1), and derive the entry count. -/
def mftEntriesFromPartition (partition : List Nat)
    (mftLcn clusterSize sectorSize mftRecordSize : Nat) : Except NtfsErr MftTable :=
  if mftRecordSize = 0 then .error .mftRecordSize
  else
    match mftEntryFromOffset partition (mftLcn * clusterSize) mftRecordSize sectorSize with
    | .error e => .error e
    | .ok e0 =>
      match dataAttribute
          ⟨partition, entryRecordBytes partition e0, mappedSize (toBuilder e0),
            some partition, true, some clusterSize⟩
          (contentsOf e0
            ⟨partition, entryRecordBytes partition e0, mappedSize (toBuilder e0),
              some partition, true, some clusterSize⟩) with
      | .error e => .error e
      | .ok ranges =>
        match slurp ranges
            (ctxReadSrc ⟨partition, entryRecordBytes partition e0,
              mappedSize (toBuilder e0), some partition, true, some clusterSize⟩) with
        | none => .error .ioError
        | some mftBytes =>
          .ok ⟨mftBytes, mftRecordSize, sectorSize, some clusterSize, some partition,
                true, mftBytes.length / mftRecordSize⟩

/-- `BPB` (src/bootsector.rs lines 17-30); `clusters_per_mft_record` and
`clusters_per_index_record` are kept as their raw bytes (interpreted as i8 by
`recordSizeOf`). -/
structure BPB where
  bytesPerSector : Nat
  sectorPerCluster : Nat
  mediaDescriptor : Nat
  totalSectors : Nat
  mftLogicalClusterNumber : Nat
  mftMirrorLogicalClusterNumber : Nat
  clustersPerMftRecord : Nat
  clustersPerIndexRecord : Nat
  volumeSerialNumber : Nat
  checksum : Nat
deriving DecidableEq, Repr

structure BootSectorM where
  oemId : Nat
  bpb : BPB
  endOfSector : Nat
  clusterSize : Nat
  mftRecordSize : Nat
  indexRecordSize : Nat
deriving DecidableEq, Repr

/-- Record-size derivation (src/bootsector.rs lines 99-115): a positive i8
byte counts clusters, a negative one is a log2 size (`1 << (−b)`). -/
def recordSizeOf (rawByte clusterSize : Nat) : Nat :=
  if rawByte % 256 < 128 then (rawByte % 256) * clusterSize
  else 2 ^ (256 - rawByte % 256)

/-- `BootSector::from_file` (src/bootsector.rs lines 46-139): 512 bytes at
offset 0, the 0xAA55 trailer and the field checks in source order. -/
def bootSectorFromFile (volume : List Nat) : Except NtfsErr BootSectorM :=
  match readN volume 0 512 with
  | .error e => .error e
  | .ok data =>
    if leNat ((data.drop 510).take 2) ≠ 0xAA55 then
      .error (.bootSectorInvalid .endOfSector)
    else if leNat ((data.drop 0xb).take 2) = 0 ∨ leNat ((data.drop 0xb).take 2) % 512 ≠ 0 then
      .error (.bootSectorInvalid .bytesPerSector)
    else if data.getD 0xd 0 % 256 = 0 then
      .error (.bootSectorInvalid .sectorPerCluster)
    else if leNat ((data.drop 0x28).take 8) = 0 then
      .error (.bootSectorInvalid .totalSectors)
    else if leNat ((data.drop 0x30).take 8) > leNat ((data.drop 0x28).take 8) ∧
            leNat ((data.drop 0x38).take 8) > leNat ((data.drop 0x28).take 8) then
      .error (.bootSectorInvalid .mftClusterNumber)
    else if data.getD 0x40 0 % 256 = 0 then
      .error (.bootSectorInvalid .clustersPerMftRecord)
    else if data.getD 0x44 0 % 256 = 0 then
      .error (.bootSectorInvalid .clustersPerIndexRecord)
    else
      .ok { oemId := leNat ((data.drop 3).take 8)
            bpb := { bytesPerSector := leNat ((data.drop 0xb).take 2)
                     sectorPerCluster := data.getD 0xd 0 % 256
                     mediaDescriptor := data.getD 0x15 0 % 256
                     totalSectors := leNat ((data.drop 0x28).take 8)
                     mftLogicalClusterNumber := leNat ((data.drop 0x30).take 8)
                     mftMirrorLogicalClusterNumber := leNat ((data.drop 0x38).take 8)
                     clustersPerMftRecord := data.getD 0x40 0 % 256
                     clustersPerIndexRecord := data.getD 0x44 0 % 256
                     volumeSerialNumber := leNat ((data.drop 0x48).take 8)
                     checksum := leNat ((data.drop 0x50).take 4) }
            endOfSector := leNat ((data.drop 510).take 2)
            clusterSize := data.getD 0xd 0 % 256 * leNat ((data.drop 0xb).take 2)
            mftRecordSize := recordSizeOf (data.getD 0x40 0)
              (data.getD 0xd 0 % 256 * leNat ((data.drop 0xb).take 2))
            indexRecordSize := recordSizeOf (data.getD 0x44 0)
              (data.getD 0xd 0 % 256 * leNat ((data.drop 0xb).take 2)) }

/-- First-match association lookup (the `nodes_ids` HashMap of
src/ntfs.rs line 28, kept as an insertion-ordered association list; the
linking properties below are membership facts, independent of iteration
order). -/
def alookup {α : Type} : List (Nat × α) → Nat → Option α
  | [], _ => none
  | (k, v) :: rest, i => if k = i then some v else alookup rest i

/-- The stored parent of a node (src/ntfs.rs lines 80-96): `Some(parent_id)`
survives only under the match guard `parent_id != i`; every other case stores
`None`. -/
def normP (i : Nat) : Option Nat → Option Nat
  | some p => if p ≠ i then some p else none
  | none => none

/-- `nodes_ids.get_mut(&i).push(v)` / `insert(i, vec![v])`
(src/ntfs.rs lines 85-95). -/
def cnInsert (m : List (Nat × List (Option Nat × Nat))) (i : Nat)
    (v : Option Nat × Nat) : List (Nat × List (Option Nat × Nat)) :=
  match m with
  | [] => [(i, [v])]
  | (k, l) :: rest => if k = i then (k, l ++ [v]) :: rest else (k, l) :: cnInsert rest i v

/-- The per-entry inner loop of `Ntfs::create_nodes` (src/ntfs.rs lines
74-97): one tree node handle (`tree.new_node`, modelled as the running
counter) is allocated per `NtfsNode`, and the pair (stored parent, handle)
is pushed under the entry id. -/
def cnEntry (st : List (Nat × List (Option Nat × Nat)) × Nat) (i : Nat)
    (nodes : List (Option Nat)) : List (Nat × List (Option Nat × Nat)) × Nat :=
  nodes.foldl (fun st2 pid => (cnInsert st2.1 i (normP i pid, st2.2), st2.2 + 1)) st

/-- The entry loop of `Ntfs::create_nodes` (src/ntfs.rs lines 62-98): a
failing `entry(i)` is logged and skipped (`continue`). -/
def cnLoop (parse : Nat → Except NtfsErr (List (Option Nat))) :
    List Nat → List (Nat × List (Option Nat × Nat)) × Nat →
    List (Nat × List (Option Nat × Nat)) × Nat
  | [], st => st
  | i :: rest, st =>
    match parse i with
    | .error _ => cnLoop parse rest st
    | .ok nodes => cnLoop parse rest (cnEntry st i nodes)

/-- `Ntfs::create_nodes` (src/ntfs.rs lines 56-99): iterate entries
`1..entry_count`; `parse i` stands for `entry(i)` followed by the per-node
parent ids `NtfsNode::from_entry` derives (each node's
`file_name.parent_mft_entry_id`).  Returns the nodes map and the next fresh
tree handle. -/
def createNodes (parse : Nat → Except NtfsErr (List (Option Nat))) (count : Nat) :
    List (Nat × List (Option Nat × Nat)) × Nat :=
  cnLoop parse (List.range' 1 (count - 1)) ([], 0)

/-- One `add_child_from_id` of `Ntfs::link_nodes` (src/ntfs.rs lines
110-139), as the (parent handle, child handle) pair it attaches: entry 5
attaches its first node under the NTFS root; a node without a stored parent
goes under orphan; a stored parent attaches under the parent entry's first
node when that entry has nodes and its first handle differs from the node's,
else under orphan. -/
def linkOne (m : List (Nat × List (Option Nat × Nat))) (id : Nat)
    (ns : List (Option Nat × Nat)) (root orphan : Nat)
    (node : Option Nat × Nat) : Nat × Nat :=
  if id = 5 then (root, (ns.headD (none, 0)).2)
  else
    match node.1 with
    | none => (orphan, node.2)
    | some p =>
      match alookup m p with
      | some ps =>
        if ps ≠ [] ∧ (ps.headD (none, 0)).2 ≠ node.2 then ((ps.headD (none, 0)).2, node.2)
        else (orphan, node.2)
      | none => (orphan, node.2)

/-- `Ntfs::link_nodes` (src/ntfs.rs lines 101-142): every node of every map
entry performs exactly one attachment; the nested loops are the bind of the
per-node attachments. -/
def linkNodes (m : List (Nat × List (Option Nat × Nat))) (root orphan : Nat) :
    List (Nat × Nat) :=
  m.flatMap (fun kv => kv.2.map (linkOne m kv.1 kv.2 root orphan))

/-- The observable effects of `NtfsPlugin::run` needed here: the nodes map,
the attachments, and the freespace ranges (when `/root/$Bitmap` was found). -/
structure RunOut where
  nodesMap : List (Nat × List (Option Nat × Nat))
  links : List (Nat × Nat)
  freespaceRanges : Option (List FRange)
deriving DecidableEq, Repr

/-- `NtfsPlugin::run` (src/lib.rs lines 62-124) composed with
`Ntfs::from_partition` (src/ntfs.rs lines 33-43) and `Ntfs::freespace`
(src/ntfs.rs lines 144-151).  The tree host is the external collaborator of
spec section 6, modelled from the spec: its node creation, child attachment and
path lookup always succeed; `bitmapLookup` is the data stream the lookup of
`/root/$Bitmap` returns (none when absent), and `fromEntry` is
`NtfsNode::from_entry`'s node derivation (the parent id carried by each
produced node).  `from_partition` passes `bytes_per_sector` as the sector
size, and — as in src/lib.rs line 81 — `run` passes
`boot_sector.bpb.bytes_per_sector` to `Ntfs::freespace` as the cluster size.
The ntfs and orphan tree nodes are allocated right after `create_nodes`, so
their handles are the next two fresh ones. -/
def pluginRun (volume : List Nat) (bitmapLookup : Option (List Nat))
    (fromEntry : Nat → MftEntryM → List (Option Nat)) : Except NtfsErr RunOut :=
  match bootSectorFromFile volume with
  | .error e => .error e
  | .ok bs =>
    match mftEntriesFromPartition volume bs.bpb.mftLogicalClusterNumber
        bs.clusterSize bs.bpb.bytesPerSector bs.mftRecordSize with
    | .error e => .error e
    | .ok t =>
      .ok { nodesMap := (createNodes (fun i => (tableEntry t i).map (fromEntry i))
              t.numberOfEntry).1
            links := linkNodes
              (createNodes (fun i => (tableEntry t i).map (fromEntry i))
                t.numberOfEntry).1
              (createNodes (fun i => (tableEntry t i).map (fromEntry i))
                t.numberOfEntry).2
              ((createNodes (fun i => (tableEntry t i).map (fromEntry i))
                t.numberOfEntry).2 + 1)
            freespaceRanges := bitmapLookup.map
              (fun bits => freespaceBuilder bits bs.bpb.bytesPerSector) }

/-! Concrete little-endian byte builders for the test images below. -/

def le2 (n : Nat) : List Nat := [n % 256, n / 256 % 256]

def le4 (n : Nat) : List Nat :=
  [n % 256, n / 256 % 256, n / 65536 % 256, n / 16777216 % 256]

def le8 (n : Nat) : List Nat := le4 n ++ le4 (n / 2 ^ 32)

/-- A 128-byte FILE record whose single attribute is a resident
$ATTRIBUTE_LIST (type 32, header id 0) holding one 26-byte item of type Data
that references MFT entry `other` with attribute id 0.  Layout: 42-byte
record header (first attribute at 42, used size 128), 16-byte attribute
header (length 86), 6-byte resident body (content size 26 at content offset
24, i.e. record offset 66), the item, zero padding. -/
def mftRecord5 (other : Nat) : List Nat :=
  [0x46, 0x49, 0x4C, 0x45] ++ le2 0 ++ le2 0 ++ le8 0 ++ le2 0 ++ le2 0 ++
    le2 42 ++ le2 1 ++ le4 128 ++ le4 128 ++ [0, 0, 0, 0, 0, 0] ++ le2 0 ++ le2 0 ++
  le4 32 ++ le4 86 ++ [0, 0] ++ le2 0 ++ le2 0 ++ le2 0 ++
  le4 26 ++ le2 24 ++
  [0, 0] ++
  le4 0x80 ++ le2 26 ++ [0, 0] ++ le8 0 ++ [other % 256, 0, 0, 0, 0, 0] ++ le2 0 ++ le2 0 ++
  List.replicate 36 0

/-- A raw MFT of three 128-byte records: slot 0 blank, slots 1 and 2 holding
AttributeLists that reference each other (entry 1 → entry 2 → entry 1). -/
def mftBytesT5 : List Nat :=
  List.replicate 128 0 ++ mftRecord5 2 ++ mftRecord5 1

/-- The entries table over that MFT (record size 128, sector size 512). -/
def mftT5 : MftTable := ⟨mftBytesT5, 128, 512, some 1024, some [], true, 3⟩

def entryT5A : MftEntryM := ⟨128, 128, 0x454C4946, 0, 0, 0, 0, 0, 42, 1, 128, 128, 0, 0, 0, 512⟩

def entryT5B : MftEntryM := ⟨256, 128, 0x454C4946, 0, 0, 0, 0, 0, 42, 1, 128, 128, 0, 0, 0, 512⟩

/-- The parsed AttributeList content both records carry (the referenced entry
id lives in the record bytes, not in the header). -/
def contentT5 : ContentM :=
  ⟨42, ⟨.attributeList, 86, 0, 0, 0, 0, 0, none, .resident ⟨26, 24⟩⟩⟩

/-- A 42-byte FILE record header (used size 66) for the `is_valid` witness. -/
def recC10 : List Nat :=
  [0x46, 0x49, 0x4C, 0x45] ++ List.replicate 20 0 ++ le4 66 ++ List.replicate 14 0

def entryC10 : MftEntryM := ⟨0, 1024, 0x454C4946, 0, 0, 0, 0, 0, 0, 0, 66, 0, 0, 0, 0, 512⟩

/-- A non-resident body with `vnc_start = 1` followed by its run list
`0x11 0x01 0x05 0x00` (one run: offset 5, length 1): parsed at attribute
offset 0 with the cursor at 0 and `run_list_offset = 48`. -/
def nrBytesC4 : List Nat :=
  le8 1 ++ le8 1 ++ le2 48 ++ le2 0 ++ le4 0 ++ le8 0 ++ le8 0 ++ le8 0 ++
  [0x11, 0x01, 0x05, 0x00]

def nrC4 : NonResident := ⟨1, 1, 48, 0, 0, 0, 0, 0, [⟨5, 1⟩]⟩

/-- The run-list decoder as claim C2 words it: a run is sparse — recorded
with offset 0 and the accumulator untouched — if and only if the offset-size
nibble O is zero; every run with nonzero O adds its sign-extended delta to
the accumulator and records the accumulated offset.  Termination and read
failures as in the source. -/
def decodeRunsClaimFuel : Nat → List Nat → Int → Except NtfsErr (List Run)
  | _, [], _ => .error .ioError
  | 0, _ :: _, _ => .error .ioError
  | fuel + 1, header :: rest, acc =>
    if header % 256 / 16 > 8 then .ok []
    else if header % 16 > 8 then .ok []
    else if header % 16 = 0 then .ok []
    else if rest.length < header % 16 + header % 256 / 16 then .error .ioError
    else if padU64 (rest.take (header % 16)) = 0 then .ok []
    else
      if header % 256 / 16 = 0 then
        match decodeRunsClaimFuel fuel ((rest.drop (header % 16)).drop (header % 256 / 16)) acc with
        | .error e => .error e
        | .ok runs => .ok (Run.mk 0 (padU64 (rest.take (header % 16))) :: runs)
      else
        match decodeRunsClaimFuel fuel ((rest.drop (header % 16)).drop (header % 256 / 16))
            (acc + padI64 ((rest.drop (header % 16)).take (header % 256 / 16))) with
        | .error e => .error e
        | .ok runs =>
          .ok (Run.mk (acc + padI64 ((rest.drop (header % 16)).take (header % 256 / 16)))
                (padU64 (rest.take (header % 16))) :: runs)

def decodeRunsClaim (bytes : List Nat) (acc : Int) : Except NtfsErr (List Run) :=
  decodeRunsClaimFuel bytes.length bytes acc

/-- The run-list decoder as the amended claim words it: a run is recorded
sparse (offset 0, accumulator unchanged) exactly when its decoded delta —
zero whenever O is zero, else the sign-extension of the O offset bytes — is
zero; a run with a nonzero decoded delta adds it to the accumulator and
records the accumulated offset. -/
def decodeRunsSpecFuel : Nat → List Nat → Int → Except NtfsErr (List Run)
  | _, [], _ => .error .ioError
  | 0, _ :: _, _ => .error .ioError
  | fuel + 1, header :: rest, acc =>
    if header % 256 / 16 > 8 then .ok []
    else if header % 16 > 8 then .ok []
    else if header % 16 = 0 then .ok []
    else if rest.length < header % 16 + header % 256 / 16 then .error .ioError
    else if padU64 (rest.take (header % 16)) = 0 then .ok []
    else
      if (if header % 256 / 16 = 0 then (0 : Int)
          else padI64 ((rest.drop (header % 16)).take (header % 256 / 16))) = 0 then
        match decodeRunsSpecFuel fuel ((rest.drop (header % 16)).drop (header % 256 / 16)) acc with
        | .error e => .error e
        | .ok runs => .ok (Run.mk 0 (padU64 (rest.take (header % 16))) :: runs)
      else
        match decodeRunsSpecFuel fuel ((rest.drop (header % 16)).drop (header % 256 / 16))
            (acc + padI64 ((rest.drop (header % 16)).take (header % 256 / 16))) with
        | .error e => .error e
        | .ok runs =>
          .ok (Run.mk (acc + padI64 ((rest.drop (header % 16)).take (header % 256 / 16)))
                (padU64 (rest.take (header % 16))) :: runs)

def decodeRunsSpec (bytes : List Nat) (acc : Int) : Except NtfsErr (List Run) :=
  decodeRunsSpecFuel bytes.length bytes acc

/-- The dst segments the amended claim C4 predicts: starting at `total`, each
run advances the cursor by `length · cluster_size`. -/
def runSegs (cs : Nat) : List Run → Nat → List (Nat × Nat)
  | [], _ => []
  | r :: rs, total => (total, total + r.length * cs) :: runSegs cs rs (total + r.length * cs)

def runsLenSum : List Run → Nat
  | [] => 0
  | r :: rs => r.length + runsLenSum rs

/-- The (stored parent, handle) pairs `create_nodes` pushes for one entry,
with handles counted from `c`. -/
def storedNodes (i c : Nat) : List (Option Nat) → List (Option Nat × Nat)
  | [] => []
  | pid :: rest => (normP i pid, c) :: storedNodes i (c + 1) rest

/-- All tree handles present in a nodes map. -/
def handlesOf (m : List (Nat × List (Option Nat × Nat))) : List Nat :=
  m.flatMap (fun kv => kv.2.map Prod.snd)

/-- Invariant of the `create_nodes` state: distinct entry keys, globally
distinct handles all below the allocation counter, nonempty node lists, and
stored parents never equal to their own entry id. -/
def cnInv (st : List (Nat × List (Option Nat × Nat)) × Nat) : Prop :=
  (st.1.map Prod.fst).Nodup ∧ (handlesOf st.1).Nodup ∧
  (∀ h ∈ handlesOf st.1, h < st.2) ∧
  (∀ kv ∈ st.1, kv.2 ≠ []) ∧
  (∀ kv ∈ st.1, ∀ x ∈ kv.2, ∀ p, x.1 = some p → p ≠ kv.1)

/-- Concrete per-entry parses for the linking witness: entry 5 one node
without filename, entry 6 one node with parent 5, entry 7 self-parented,
every other entry unreadable. -/
def parseC6 : Nat → Except NtfsErr (List (Option Nat)) := fun i =>
  if i = 5 then .ok [none]
  else if i = 6 then .ok [some 5]
  else if i = 7 then .ok [some 7]
  else .error .ioError

/-- Concrete per-entry parses for the propagation witness: only entry 1
parses, yielding one node. -/
def parseC8 : Nat → Except NtfsErr (List (Option Nat)) := fun i =>
  if i = 1 then .ok [none] else .error .ioError

/-! Theorems. -/

/-- The source decoder and the amended-claim decoder agree at every fuel:
not advancing the accumulator on sparse runs is the same as adding a zero
delta, and the recorded run depends only on whether the decoded delta is
zero. -/
theorem decodeRunsFuel_eq_spec :
    ∀ (fuel : Nat) (bytes : List Nat) (acc : Int),
      decodeRunsFuel fuel bytes acc = decodeRunsSpecFuel fuel bytes acc := by
  intro fuel
  induction fuel with
  | zero => intro bytes acc; cases bytes <;> rfl
  | succ n ih =>
    intro bytes acc
    cases bytes with
    | nil => rfl
    | cons header rest =>
      simp only [decodeRunsFuel, decodeRunsSpecFuel]
      by_cases h1 : header % 256 / 16 > 8
      · simp [h1]
      by_cases h2 : header % 16 > 8
      · simp [h1, h2]
      by_cases h3 : header % 16 = 0
      · simp [h1, h2, h3]
      by_cases h4 : rest.length < header % 16 + header % 256 / 16
      · simp [h1, h2, h3, h4]
      by_cases h5 : padU64 (rest.take (header % 16)) = 0
      · simp [h1, h2, h3, h4, h5]
      simp only [if_neg h1, if_neg h2, if_neg h3, if_neg h4, if_neg h5]
      by_cases hd : (if header % 256 / 16 = 0 then (0 : Int)
          else padI64 ((rest.drop (header % 16)).take (header % 256 / 16))) = 0
      · rw [if_pos hd, hd, add_zero, ih]
        simp
      · have hO : ¬ header % 256 / 16 = 0 := by
          intro h0
          exact hd (by rw [if_pos h0])
        rw [if_neg hO] at hd ⊢
        rw [if_neg hd, if_neg hd, ih]

/-- C2 (amended): in the run-list decoder a run is recorded sparse (offset 0,
accumulator unchanged) exactly when its decoded delta is zero — which holds
whenever the offset-size nibble O is zero, but also when O is nonzero and the
O little-endian sign-extended bytes decode to zero; every run with a nonzero
decoded delta adds the delta to the running accumulator and is recorded with
the accumulated offset.  Stated as: the source decoder coincides with the
decoder that implements exactly that rule. -/
theorem c2_decoder_matches_zero_delta_rule :
    ∀ (bytes : List Nat) (acc : Int), decodeRuns bytes acc = decodeRunsSpec bytes acc :=
  fun bytes acc => decodeRunsFuel_eq_spec bytes.length bytes acc

/-- C2 counterexample: on the run list `0x11 0x01 0x05  0x11 0x01 0x00  0x00`
the second run has offset-size nibble O = 1 and decoded delta 0; the claimed
rule (sparse iff O = 0, otherwise offset = accumulator) would record it with
the accumulated offset 5, but the source records it sparse (offset 0). -/
theorem c2_counterexample :
    decodeRuns [0x11, 0x01, 0x05, 0x11, 0x01, 0x00, 0x00] 0 =
      .ok [⟨5, 1⟩, ⟨0, 1⟩] ∧
    decodeRunsClaim [0x11, 0x01, 0x05, 0x11, 0x01, 0x00, 0x00] 0 =
      .ok [⟨5, 1⟩, ⟨5, 1⟩] ∧
    decodeRuns [0x11, 0x01, 0x05, 0x11, 0x01, 0x00, 0x00] 0 ≠
      decodeRunsClaim [0x11, 0x01, 0x05, 0x11, 0x01, 0x00, 0x00] 0 := by
  refine ⟨by decide, by decide, by decide⟩

/-- C1: for the bitmap bytes 0b11110000 0b00001111 the source returns the
single range (1, 3): the clear run starting at cluster 0 is opened at
cluster 1 (cluster_start = 0 doubles as the no-run sentinel) and the clear
run 12..15 that reaches the last bit is never flushed; the claimed ranges
{0..3} and {12..15} are absent. -/
theorem c1_bitmap_failing_eval :
    bitmapNew [0xF0, 0x0F] = [(1, 3)] ∧
    (0, 3) ∉ bitmapNew [0xF0, 0x0F] ∧ (12, 15) ∉ bitmapNew [0xF0, 0x0F] := by
  refine ⟨by decide, by decide, by decide⟩

/-- C3: `StandardInformation::new` accepts the content size 60 — which is
neither 48 nor 72 — and returns the parsed record with the four optional
fields `None`, because its guard is `size < 48 && size != 72`. -/
theorem c3_standard_info_failing_eval :
    standardInformationNew 60 (fun p => if p < 60 then some 0 else none) =
      .ok ⟨0, 0, 0, 0, 0, 0, 0, 0, none, none, none, none⟩ ∧
    (60 : Nat) ≠ 48 ∧ (60 : Nat) ≠ 72 := by
  refine ⟨by decide, by decide, by decide⟩

/-- C7 counterexample: decoding `0x21 0x10 0x00 0x20 0x00 0x11 0x08 0xFF`
yields exactly one run, {offset 0x2000, length 0x10} — the two offset bytes
are little-endian, and the byte 0x00 at position 4 is a terminating header —
so no second run with offset 0x1F exists. -/
theorem c7_counterexample :
    decodeRuns [0x21, 0x10, 0x00, 0x20, 0x00, 0x11, 0x08, 0xFF] 0 =
      .ok [⟨0x2000, 0x10⟩] ∧
    ∀ a b l, decodeRuns [0x21, 0x10, 0x00, 0x20, 0x00, 0x11, 0x08, 0xFF] 0 ≠
      .ok (a :: b :: l) := by
  refine ⟨by decide, ?_⟩
  intro a b l h
  rw [show decodeRuns [0x21, 0x10, 0x00, 0x20, 0x00, 0x11, 0x08, 0xFF] 0 =
        .ok [⟨0x2000, 0x10⟩] from by decide] at h
  simp at h

/-- C7 (amended): the given bytes decode to the single run
{offset 0x2000, length 0x10}; with the offset bytes in little-endian order
and a terminating header — `0x21 0x10 0x20 0x00  0x11 0x08 0xFF  0x00` — the
second run's absolute offset is 0x20 + (−1) = 0x1F. -/
theorem c7_signed_delta_eval :
    decodeRuns [0x21, 0x10, 0x00, 0x20, 0x00, 0x11, 0x08, 0xFF] 0 =
      .ok [⟨0x2000, 0x10⟩] ∧
    decodeRuns [0x21, 0x10, 0x20, 0x00, 0x11, 0x08, 0xFF, 0x00] 0 =
      .ok [⟨0x20, 0x10⟩, ⟨0x1F, 0x08⟩] := by
  refine ⟨by decide, by decide⟩

/-- `mappedSize` of a cons is the size of the (nonempty) tail. -/
theorem mappedSize_cons (x : FRange) (out : List FRange) (h : out ≠ []) :
    mappedSize (x :: out) = mappedSize out := by
  cases out with
  | nil => exact absurd rfl h
  | cons y t => simp [mappedSize, List.getLast?_cons_cons]

/-- The range list built by the non-resident run loop: its dst segments are
the cumulative segments of the runs, and the final dst cursor is the start
plus the summed run lengths times the cluster size. -/
theorem nonResidentRanges_spec (cs psize : Nat) :
    ∀ (runs : List Run) (total : Nat) (ranges : List FRange),
      nonResidentRanges cs psize runs total = .ok ranges →
      ranges.map (fun r => (r.dstStart, r.dstEnd)) = runSegs cs runs total ∧
      mappedSize ranges =
        (if runs = [] then 0 else total + runsLenSum runs * cs) := by
  intro runs
  induction runs with
  | nil =>
    intro total ranges h
    simp only [nonResidentRanges] at h
    cases h
    simp [runSegs, mappedSize, runsLenSum]
  | cons r rs ih =>
    intro total ranges h
    simp only [nonResidentRanges] at h
    by_cases hz : r.offset = 0
    · rw [if_pos hz] at h
      cases hrec : nonResidentRanges cs psize rs (total + r.length * cs) with
      | error e => rw [hrec] at h; exact absurd h (by simp)
      | ok out =>
        rw [hrec] at h
        have hranges : ranges =
            FRange.mk total (total + r.length * cs) 0 SrcTag.zero :: out := by
          cases h; rfl
        obtain ⟨hmap, hsize⟩ := ih _ _ hrec
        subst hranges
        constructor
        · simp [runSegs, hmap]
        · cases hrs : rs with
          | nil =>
            subst hrs
            simp only [nonResidentRanges] at hrec
            cases hrec
            simp [mappedSize, runsLenSum, Nat.add_mul]
          | cons r2 rs2 =>
            have hout : out ≠ [] := by
              intro h0
              rw [h0, hrs] at hmap
              simp [runSegs] at hmap
            rw [mappedSize_cons _ _ hout]
            rw [hsize]
            simp only [hrs]
            simp [runsLenSum, Nat.add_mul]
            omega
    · rw [if_neg hz] at h
      by_cases hps : (r.offset.emod (2 ^ 64)).toNat * cs > psize
      · rw [if_pos hps] at h
        exact absurd h (by simp)
      · rw [if_neg hps] at h
        cases hrec : nonResidentRanges cs psize rs (total + r.length * cs) with
        | error e => rw [hrec] at h; exact absurd h (by simp)
        | ok out =>
          rw [hrec] at h
          have hranges : ranges =
              FRange.mk total (total + r.length * cs)
                ((r.offset.emod (2 ^ 64)).toNat * cs) SrcTag.partition :: out := by
            cases h; rfl
          obtain ⟨hmap, hsize⟩ := ih _ _ hrec
          subst hranges
          constructor
          · simp [runSegs, hmap]
          · cases hrs : rs with
            | nil =>
              subst hrs
              simp only [nonResidentRanges] at hrec
              cases hrec
              simp [mappedSize, runsLenSum, Nat.add_mul]
            | cons r2 rs2 =>
              have hout : out ≠ [] := by
                intro h0
                rw [h0, hrs] at hmap
                simp [runSegs] at hmap
              rw [mappedSize_cons _ _ hout]
              rw [hsize]
              simp only [hrs]
              simp [runsLenSum, Nat.add_mul]
              omega

/-- C4 (amended): for every successfully parsed non-resident attribute whose
stream builder succeeds (zero builder and cluster size available), the dst
cursor starts at `vnc_start · cluster_size` and advances by
`length · cluster_size` per run, so the mapped VF size equals
`(vnc_start + sum of run lengths) · cluster_size` (0 for an empty run list);
the claimed size `sum of run lengths · cluster_size` and start 0 hold only
when `vnc_start = 0`. -/
theorem c4_nonresident_stream_extent (bytes : List Nat) (offset cursor : Nat)
    (nr : NonResident) (zp : Bool) (cs psize : Nat) (ranges : List FRange)
    (_hparse : nonResidentFromFile bytes offset cursor = .ok nr)
    (hbuild : nonResidentBuilder nr zp (some cs) psize = .ok ranges) :
    ranges.map (fun r => (r.dstStart, r.dstEnd)) = runSegs cs nr.runs (nr.vncStart * cs) ∧
    mappedSize ranges =
      (if nr.runs = [] then 0 else nr.vncStart * cs + runsLenSum nr.runs * cs) := by
  cases zp with
  | false => exact absurd hbuild (by simp [nonResidentBuilder])
  | true =>
    simp only [nonResidentBuilder] at hbuild
    exact nonResidentRanges_spec cs psize nr.runs (nr.vncStart * cs) ranges hbuild

/-- C4 counterexample: the parsed non-resident attribute `nrC4` has
`vnc_start = 1` and one run of length 1; with cluster size 2 its builder
produces the single dst range [2, 4) — the dst cursor starts at
`vnc_start · cluster_size = 2`, not 0, and the mapped size 4 differs from
the claimed `sum of run lengths · cluster_size = 2`. -/
theorem c4_counterexample :
    nonResidentFromFile nrBytesC4 0 0 = .ok nrC4 ∧
    nonResidentBuilder nrC4 true (some 2) 1000 =
      .ok [FRange.mk 2 4 10 SrcTag.partition] ∧
    (2 : Nat) ≠ 0 ∧
    mappedSize [FRange.mk 2 4 10 SrcTag.partition] ≠ runsLenSum nrC4.runs * 2 := by
  refine ⟨by decide, by decide, by decide, by decide⟩

/-- C4 witness: the amended statement evaluated on the concrete parsed
attribute `nrC4`. -/
theorem c4_witness :
    [FRange.mk 2 4 10 SrcTag.partition].map (fun r => (r.dstStart, r.dstEnd)) =
      runSegs 2 nrC4.runs (nrC4.vncStart * 2) ∧
    mappedSize [FRange.mk 2 4 10 SrcTag.partition] =
      (if nrC4.runs = [] then 0 else nrC4.vncStart * 2 + runsLenSum nrC4.runs * 2) :=
  c4_nonresident_stream_extent nrBytesC4 0 0 nrC4 true 2 1000
    [FRange.mk 2 4 10 SrcTag.partition] (by decide) (by decide)

/-- One step of the mutual AttributeList recursion on the cyclic table
`mftT5`: decoding entry 1's AttributeList at depth n + 1 reduces to decoding
entry 2's AttributeList at depth n (the entries table is passed into the
recursive call). -/
theorem c5_step_entry1 (n : Nat) :
    contentToAttribute (some mftT5) (n + 1) (ctxOf mftT5 entryT5A) contentT5 =
      Option.map (fun l => ([] : List NtfsAttr) ++ l)
        (contentToAttribute (some mftT5) n (ctxOf mftT5 entryT5B) contentT5) := rfl

/-- The symmetric step: entry 2's AttributeList recurses into entry 1's. -/
theorem c5_step_entry2 (n : Nat) :
    contentToAttribute (some mftT5) (n + 1) (ctxOf mftT5 entryT5B) contentT5 =
      Option.map (fun l => ([] : List NtfsAttr) ++ l)
        (contentToAttribute (some mftT5) n (ctxOf mftT5 entryT5A) contentT5) := rfl

/-- No recursion depth suffices on the cyclic table: both AttributeList
contents exhaust every fuel. -/
theorem c5_mutual_no_fuel (n : Nat) :
    contentToAttribute (some mftT5) n (ctxOf mftT5 entryT5A) contentT5 = none ∧
    contentToAttribute (some mftT5) n (ctxOf mftT5 entryT5B) contentT5 = none := by
  induction n with
  | zero => exact ⟨rfl, rfl⟩
  | succ n ih =>
    refine ⟨?_, ?_⟩
    · rw [c5_step_entry1 n, ih.2]; rfl
    · rw [c5_step_entry2 n, ih.1]; rfl

/-- C5: AttributeList recursion is not bounded to depth 1 — the entries
table is passed into the recursive call, so on the MFT `mftT5`, whose
entries 1 and 2 carry AttributeLists referencing each other (matching
attribute id 0), `read_attributes` does not terminate: it exhausts every
recursion depth (the source recurses until the stack overflows). -/
theorem c5_attribute_list_recursion_unbounded :
    tableEntry mftT5 1 = .ok entryT5A ∧ tableEntry mftT5 2 = .ok entryT5B ∧
    contentsOf entryT5A (ctxOf mftT5 entryT5A) = [contentT5] ∧
    contentsOf entryT5B (ctxOf mftT5 entryT5B) = [contentT5] ∧
    ∀ fuel, readAttributes (some mftT5) fuel (ctxOf mftT5 entryT5A)
        (contentsOf entryT5A (ctxOf mftT5 entryT5A)) = none := by
  refine ⟨by decide, by decide, by decide, by decide, ?_⟩
  intro fuel
  have hra : readAttributes (some mftT5) fuel (ctxOf mftT5 entryT5A)
      (contentsOf entryT5A (ctxOf mftT5 entryT5A)) =
      Option.map (fun l2 => ([] : List NtfsAttr) ++ l2)
        (contentToAttribute (some mftT5) fuel (ctxOf mftT5 entryT5A) contentT5) := rfl
  rw [hra, (c5_mutual_no_fuel fuel).1]
  rfl

/-- C10: for every successfully parsed MFT entry, `is_valid` is true exactly
when the record signature is neither FILE (0x454C4946) nor BAAD
(0x44414142); in particular it is false for every FILE record. -/
theorem c10_is_valid_inverted (mftBytes : List Nat)
    (offset recordSize sectorSize : Nat) (e : MftEntryM)
    (_h : mftEntryFromOffset mftBytes offset recordSize sectorSize = .ok e) :
    e.isValid = true ↔ (e.signature ≠ 0x454C4946 ∧ e.signature ≠ 0x44414142) := by
  simp [MftEntryM.isValid]

/-- C10 witness: the FILE record `recC10` parses to `entryC10`, whose
signature is FILE, and `is_valid` is accordingly false. -/
theorem c10_witness :
    mftEntryFromOffset recC10 0 1024 512 = .ok entryC10 ∧
    (entryC10.isValid = true ↔
      (entryC10.signature ≠ 0x454C4946 ∧ entryC10.signature ≠ 0x44414142)) ∧
    entryC10.isValid = false :=
  ⟨by decide, c10_is_valid_inverted recC10 0 1024 512 entryC10 (by decide), by decide⟩

theorem alookup_mem {α : Type} : ∀ (m : List (Nat × α)) (k : Nat) (v : α),
    alookup m k = some v → (k, v) ∈ m := by
  intro m
  induction m with
  | nil => intro k v h; exact absurd h (by simp [alookup])
  | cons kv rest ih =>
    intro k v h
    obtain ⟨k0, v0⟩ := kv
    simp only [alookup] at h
    by_cases hk : k0 = k
    · rw [if_pos hk] at h
      cases h
      subst hk
      exact List.mem_cons_self _ _
    · rw [if_neg hk] at h
      exact List.mem_cons_of_mem _ (ih k v h)

theorem alookup_eq_none {α : Type} : ∀ (m : List (Nat × α)) (k : Nat),
    alookup m k = none ↔ k ∉ m.map Prod.fst := by
  intro m
  induction m with
  | nil => intro k; simp [alookup]
  | cons kv rest ih =>
    intro k
    obtain ⟨k0, v0⟩ := kv
    simp only [alookup, List.map_cons, List.mem_cons]
    by_cases hk : k0 = k
    · simp [hk]
    · simp only [if_neg hk, ih]
      constructor
      · intro h hc
        rcases hc with hc | hc
        · exact hk hc.symm
        · exact h hc
      · intro h
        exact fun hc => h (Or.inr hc)

theorem headD_mem {α : Type} (l : List α) (d : α) (h : l ≠ []) : l.headD d ∈ l := by
  cases l with
  | nil => exact absurd rfl h
  | cons x t => exact List.mem_cons_self x t

theorem mem_handlesOf (m : List (Nat × List (Option Nat × Nat))) (k : Nat)
    (l : List (Option Nat × Nat)) (x : Option Nat × Nat)
    (hm : (k, l) ∈ m) (hx : x ∈ l) : x.2 ∈ handlesOf m := by
  simp only [handlesOf, List.mem_flatMap]
  exact ⟨(k, l), hm, List.mem_map_of_mem _ hx⟩

theorem cnInsert_alookup_self (m : List (Nat × List (Option Nat × Nat))) (i : Nat)
    (v : Option Nat × Nat) :
    alookup (cnInsert m i v) i = some ((alookup m i).getD [] ++ [v]) := by
  induction m with
  | nil => simp [cnInsert, alookup]
  | cons kv rest ih =>
    obtain ⟨k, l⟩ := kv
    simp only [cnInsert]
    by_cases hk : k = i
    · simp [alookup, if_pos hk, hk]
    · simp [alookup, if_neg hk, ih]

theorem cnInsert_alookup_ne (m : List (Nat × List (Option Nat × Nat))) (i j : Nat)
    (v : Option Nat × Nat) (hne : j ≠ i) :
    alookup (cnInsert m i v) j = alookup m j := by
  induction m with
  | nil =>
    simp only [cnInsert, alookup]
    rw [if_neg (fun h => hne h.symm)]
  | cons kv rest ih =>
    obtain ⟨k, l⟩ := kv
    simp only [cnInsert]
    by_cases hk : k = i
    · subst hk
      rw [if_pos rfl]
      simp only [alookup]
      have hkj : ¬ k = j := fun h => hne h.symm
      rw [if_neg hkj, if_neg hkj]
    · rw [if_neg hk]
      simp only [alookup]
      by_cases hkj : k = j
      · rw [if_pos hkj, if_pos hkj]
      · rw [if_neg hkj, if_neg hkj]
        exact ih

theorem cnInsert_keys_none (m : List (Nat × List (Option Nat × Nat))) (i : Nat)
    (v : Option Nat × Nat) (h : alookup m i = none) :
    (cnInsert m i v).map Prod.fst = m.map Prod.fst ++ [i] := by
  induction m with
  | nil => simp [cnInsert]
  | cons kv rest ih =>
    obtain ⟨k, l⟩ := kv
    simp only [alookup] at h
    by_cases hk : k = i
    · rw [if_pos hk] at h; exact absurd h (by simp)
    · rw [if_neg hk] at h
      simp [cnInsert, if_neg hk, ih h]

theorem cnInsert_keys_some (m : List (Nat × List (Option Nat × Nat))) (i : Nat)
    (v : Option Nat × Nat) (l0 : List (Option Nat × Nat))
    (h : alookup m i = some l0) :
    (cnInsert m i v).map Prod.fst = m.map Prod.fst := by
  induction m with
  | nil => exact absurd h (by simp [alookup])
  | cons kv rest ih =>
    obtain ⟨k, l⟩ := kv
    simp only [alookup] at h
    by_cases hk : k = i
    · simp [cnInsert, if_pos hk]
    · rw [if_neg hk] at h
      simp [cnInsert, if_neg hk, ih h]

theorem cnInsert_handles_perm (m : List (Nat × List (Option Nat × Nat))) (i : Nat)
    (v : Option Nat × Nat) :
    (handlesOf (cnInsert m i v)).Perm (handlesOf m ++ [v.2]) := by
  induction m with
  | nil => simp [cnInsert, handlesOf]
  | cons kv rest ih =>
    obtain ⟨k, l⟩ := kv
    by_cases hk : k = i
    · simp only [cnInsert, if_pos hk, handlesOf, List.flatMap_cons, List.map_append]
      rw [List.append_assoc, List.append_assoc]
      exact List.Perm.append_left _ (List.perm_append_comm)
    · simp only [cnInsert, if_neg hk, handlesOf, List.flatMap_cons]
      rw [List.append_assoc]
      exact List.Perm.append_left _ ih

theorem cnInsert_nonempty (m : List (Nat × List (Option Nat × Nat))) (i : Nat)
    (v : Option Nat × Nat) (hm : ∀ kv ∈ m, kv.2 ≠ []) :
    ∀ kv ∈ cnInsert m i v, kv.2 ≠ [] := by
  induction m with
  | nil =>
    intro kv hkv
    simp only [cnInsert, List.mem_singleton] at hkv
    subst hkv
    simp
  | cons kv0 rest ih =>
    obtain ⟨k, l⟩ := kv0
    intro kv hkv
    by_cases hk : k = i
    · simp only [cnInsert, if_pos hk, List.mem_cons] at hkv
      rcases hkv with hkv | hkv
      · subst hkv; simp
      · exact hm kv (List.mem_cons_of_mem _ hkv)
    · simp only [cnInsert, if_neg hk, List.mem_cons] at hkv
      rcases hkv with hkv | hkv
      · subst hkv
        exact hm (k, l) (List.mem_cons_self _ _)
      · exact ih (fun kv2 h2 => hm kv2 (List.mem_cons_of_mem _ h2)) kv hkv

theorem cnInsert_parents (m : List (Nat × List (Option Nat × Nat))) (i : Nat)
    (v : Option Nat × Nat)
    (hm : ∀ kv ∈ m, ∀ x ∈ kv.2, ∀ p, x.1 = some p → p ≠ kv.1)
    (hv : ∀ p, v.1 = some p → p ≠ i) :
    ∀ kv ∈ cnInsert m i v, ∀ x ∈ kv.2, ∀ p, x.1 = some p → p ≠ kv.1 := by
  induction m with
  | nil =>
    intro kv hkv
    simp only [cnInsert, List.mem_singleton] at hkv
    subst hkv
    intro x hx
    simp only [List.mem_singleton] at hx
    subst hx
    exact hv
  | cons kv0 rest ih =>
    obtain ⟨k, l⟩ := kv0
    intro kv hkv
    by_cases hk : k = i
    · simp only [cnInsert, if_pos hk, List.mem_cons] at hkv
      rcases hkv with hkv | hkv
      · subst hkv
        intro x hx
        simp only [List.mem_append, List.mem_singleton] at hx
        rcases hx with hx | hx
        · exact hm (k, l) (List.mem_cons_self _ _) x hx
        · subst hx
          intro p hp
          rw [hk]
          exact hv p hp
      · exact hm kv (List.mem_cons_of_mem _ hkv)
    · simp only [cnInsert, if_neg hk, List.mem_cons] at hkv
      rcases hkv with hkv | hkv
      · subst hkv
        exact hm (k, l) (List.mem_cons_self _ _)
      · exact ih (fun kv2 h2 => hm kv2 (List.mem_cons_of_mem _ h2)) kv hkv

theorem normP_ne (i : Nat) (pid : Option Nat) (p : Nat) (h : normP i pid = some p) :
    p ≠ i := by
  cases pid with
  | none => exact absurd h (by simp [normP])
  | some q =>
    simp only [normP] at h
    by_cases hq : q ≠ i
    · rw [if_pos hq] at h
      cases h
      exact hq
    · rw [if_neg hq] at h
      exact absurd h (by simp)

theorem storedNodes_fst (i : Nat) :
    ∀ (l : List (Option Nat)) (c : Nat),
      (storedNodes i c l).map Prod.fst = l.map (normP i) := by
  intro l
  induction l with
  | nil => intro c; rfl
  | cons pid rest ih => intro c; simp [storedNodes, ih]

theorem storedNodes_length (i : Nat) :
    ∀ (l : List (Option Nat)) (c : Nat), (storedNodes i c l).length = l.length := by
  intro l
  induction l with
  | nil => intro c; rfl
  | cons pid rest ih => intro c; simp [storedNodes, ih]

theorem cnInv_insert (i : Nat) (pid : Option Nat)
    (m : List (Nat × List (Option Nat × Nat))) (c : Nat) (h : cnInv (m, c)) :
    cnInv (cnInsert m i (normP i pid, c), c + 1) := by
  obtain ⟨hkeys, hhand, hbound, hne, hpar⟩ := h
  have hperm := cnInsert_handles_perm m i (normP i pid, c)
  refine ⟨?_, ?_, ?_, ?_, ?_⟩
  · cases hl : alookup m i with
    | none =>
      rw [cnInsert_keys_none m i _ hl, List.nodup_append]
      refine ⟨hkeys, List.nodup_singleton i, ?_⟩
      intro a ha hb
      simp only [List.mem_singleton] at hb
      subst hb
      exact (alookup_eq_none m a).mp hl ha
    | some l0 =>
      rw [cnInsert_keys_some m i _ l0 hl]
      exact hkeys
  · rw [hperm.nodup_iff, List.nodup_append]
    refine ⟨hhand, List.nodup_singleton c, ?_⟩
    intro a ha hb
    simp only [List.mem_singleton] at hb
    subst hb
    exact absurd (hbound _ ha) (lt_irrefl a)
  · intro h hh
    rcases hperm.mem_iff.mp hh with hh2
    rcases List.mem_append.mp hh2 with hh3 | hh3
    · exact Nat.lt_succ_of_lt (hbound _ hh3)
    · simp only [List.mem_singleton] at hh3
      subst hh3
      exact Nat.lt_succ_self h
  · exact cnInsert_nonempty m i _ hne
  · exact cnInsert_parents m i _ hpar (fun p hp => normP_ne i pid p hp)

theorem cnEntry_counter (i : Nat) :
    ∀ (nodes : List (Option Nat)) (st : List (Nat × List (Option Nat × Nat)) × Nat),
      (cnEntry st i nodes).2 = st.2 + nodes.length := by
  intro nodes
  induction nodes with
  | nil => intro st; rfl
  | cons pid rest ih =>
    intro st
    show (cnEntry (cnInsert st.1 i (normP i pid, st.2), st.2 + 1) i rest).2 = _
    rw [ih]
    simp
    omega

theorem cnEntry_alookup_ne (i j : Nat) (hne : j ≠ i) :
    ∀ (nodes : List (Option Nat)) (st : List (Nat × List (Option Nat × Nat)) × Nat),
      alookup (cnEntry st i nodes).1 j = alookup st.1 j := by
  intro nodes
  induction nodes with
  | nil => intro st; rfl
  | cons pid rest ih =>
    intro st
    show alookup (cnEntry (cnInsert st.1 i (normP i pid, st.2), st.2 + 1) i rest).1 j = _
    rw [ih]
    exact cnInsert_alookup_ne st.1 i j _ hne

theorem cnEntry_alookup_self (i : Nat) :
    ∀ (nodes : List (Option Nat)) (st : List (Nat × List (Option Nat × Nat)) × Nat),
      alookup (cnEntry st i nodes).1 i =
        (if nodes.isEmpty then alookup st.1 i
         else some ((alookup st.1 i).getD [] ++ storedNodes i st.2 nodes)) := by
  intro nodes
  induction nodes with
  | nil => intro st; rfl
  | cons pid rest ih =>
    intro st
    show alookup (cnEntry (cnInsert st.1 i (normP i pid, st.2), st.2 + 1) i rest).1 i = _
    rw [ih]
    cases rest with
    | nil =>
      simp only [List.isEmpty_nil, if_pos]
      rw [cnInsert_alookup_self]
      simp [storedNodes]
    | cons pid2 rest2 =>
      simp only [List.isEmpty_cons, if_neg]
      rw [cnInsert_alookup_self]
      simp [storedNodes, List.append_assoc]

theorem cnEntry_inv (i : Nat) :
    ∀ (nodes : List (Option Nat)) (st : List (Nat × List (Option Nat × Nat)) × Nat),
      cnInv st → cnInv (cnEntry st i nodes) := by
  intro nodes
  induction nodes with
  | nil => intro st h; exact h
  | cons pid rest ih =>
    intro st h
    show cnInv (cnEntry (cnInsert st.1 i (normP i pid, st.2), st.2 + 1) i rest)
    exact ih _ (cnInv_insert i pid st.1 st.2 h)

theorem cnLoop_inv (parse : Nat → Except NtfsErr (List (Option Nat))) :
    ∀ (idxs : List Nat) (st : List (Nat × List (Option Nat × Nat)) × Nat),
      cnInv st → cnInv (cnLoop parse idxs st) := by
  intro idxs
  induction idxs with
  | nil => intro st h; exact h
  | cons i rest ih =>
    intro st h
    cases hp : parse i with
    | error e => simp only [cnLoop, hp]; exact ih st h
    | ok nodes => simp only [cnLoop, hp]; exact ih _ (cnEntry_inv i nodes st h)

theorem cnLoop_alookup_notmem (parse : Nat → Except NtfsErr (List (Option Nat)))
    (j : Nat) :
    ∀ (idxs : List Nat) (st : List (Nat × List (Option Nat × Nat)) × Nat),
      j ∉ idxs → alookup (cnLoop parse idxs st).1 j = alookup st.1 j := by
  intro idxs
  induction idxs with
  | nil => intro st _; rfl
  | cons i rest ih =>
    intro st hmem
    have hji : j ≠ i := fun h => hmem (h ▸ List.mem_cons_self i rest)
    have hrest : j ∉ rest := fun h => hmem (List.mem_cons_of_mem i h)
    cases hp : parse i with
    | error e => simp only [cnLoop, hp]; exact ih st hrest
    | ok nodes =>
      simp only [cnLoop, hp]
      rw [ih _ hrest]
      exact cnEntry_alookup_ne i j hji nodes st

theorem cnLoop_alookup (parse : Nat → Except NtfsErr (List (Option Nat)))
    (i : Nat) (l : List (Option Nat)) (hl : l ≠ []) (hp : parse i = .ok l) :
    ∀ (idxs : List Nat) (st : List (Nat × List (Option Nat × Nat)) × Nat),
      idxs.Nodup → i ∈ idxs → alookup st.1 i = none →
      ∃ c, alookup (cnLoop parse idxs st).1 i = some (storedNodes i c l) := by
  intro idxs
  induction idxs with
  | nil => intro st _ hmem; exact absurd hmem (List.not_mem_nil i)
  | cons j rest ih =>
    intro st hnd hmem hnone
    by_cases hj : j = i
    · subst hj
      simp only [cnLoop, hp]
      have hrest : j ∉ rest := (List.nodup_cons.mp hnd).1
      rw [cnLoop_alookup_notmem parse j rest _ hrest]
      rw [cnEntry_alookup_self]
      rw [hnone]
      refine ⟨st.2, ?_⟩
      have : l.isEmpty = false := by
        cases l with
        | nil => exact absurd rfl hl
        | cons a t => rfl
      rw [this]
      simp
    · have hmem2 : i ∈ rest := by
        rcases List.mem_cons.mp hmem with h | h
        · exact absurd h.symm hj
        · exact h
      have hnd2 := (List.nodup_cons.mp hnd).2
      cases hpj : parse j with
      | error e => simp only [cnLoop, hpj]; exact ih st hnd2 hmem2 hnone
      | ok nodes =>
        simp only [cnLoop, hpj]
        refine ih _ hnd2 hmem2 ?_
        rw [cnEntry_alookup_ne j i (fun h => hj h.symm)]
        exact hnone

/-- Handles under two different keys of an invariant-respecting map are
distinct. -/
theorem handles_cross :
    ∀ (m : List (Nat × List (Option Nat × Nat))),
      (m.map Prod.fst).Nodup → (handlesOf m).Nodup →
      ∀ (id p : Nat) (ns ps : List (Option Nat × Nat)), id ≠ p →
        alookup m id = some ns → alookup m p = some ps →
        ∀ x ∈ ns, ∀ y ∈ ps, x.2 ≠ y.2 := by
  intro m
  induction m with
  | nil => intro _ _ id p ns ps _ h1; exact absurd h1 (by simp [alookup])
  | cons kv rest ih =>
    obtain ⟨k, l⟩ := kv
    intro hkeys hhand id p ns ps hne h1 h2 x hx y hy
    have hkeys2 : (rest.map Prod.fst).Nodup := (List.nodup_cons.mp hkeys).2
    have happ : (handlesOf ((k, l) :: rest)) = l.map Prod.snd ++ handlesOf rest := by
      simp [handlesOf]
    rw [happ] at hhand
    have hdisj := (List.nodup_append.mp hhand).2.2
    have hhand2 := (List.nodup_append.mp hhand).2.1
    simp only [alookup] at h1 h2
    by_cases hk1 : k = id
    · rw [if_pos hk1] at h1
      have hns : l = ns := by cases h1; rfl
      have hkp : ¬ k = p := fun h => hne (hk1 ▸ h ▸ rfl)
      rw [if_neg hkp] at h2
      have hyrest : y.2 ∈ handlesOf rest :=
        mem_handlesOf rest p ps y (alookup_mem rest p ps h2) hy
      intro hxy
      exact hdisj (by rw [← hns] at hx; exact List.mem_map_of_mem _ hx) (hxy ▸ hyrest)
    · rw [if_neg hk1] at h1
      by_cases hk2 : k = p
      · rw [if_pos hk2] at h2
        have hps : l = ps := by cases h2; rfl
        have hxrest : x.2 ∈ handlesOf rest :=
          mem_handlesOf rest id ns x (alookup_mem rest id ns h1) hx
        intro hxy
        refine @hdisj y.2 ?_ ?_
        · rw [← hps] at hy
          exact List.mem_map_of_mem _ hy
        · rw [← hxy]
          exact hxrest
      · rw [if_neg hk2] at h2
        exact ih hkeys2 hhand2 id p ns ps hne h1 h2 x hx y hy

/-- Every node of every map entry contributes its attachment to
`link_nodes`. -/
theorem linkNodes_mem (m : List (Nat × List (Option Nat × Nat)))
    (root orphan : Nat) (id : Nat) (ns : List (Option Nat × Nat))
    (node : Option Nat × Nat) (h1 : (id, ns) ∈ m) (h2 : node ∈ ns) :
    linkOne m id ns root orphan node ∈ linkNodes m root orphan := by
  simp only [linkNodes, List.mem_flatMap]
  exact ⟨(id, ns), h1, List.mem_map_of_mem _ h2⟩

theorem cnInv_empty : cnInv (([] : List (Nat × List (Option Nat × Nat))), 0) := by
  refine ⟨List.nodup_nil, List.nodup_nil, ?_, ?_, ?_⟩ <;> simp [handlesOf]

/-- C6: after `create_nodes` and `link_nodes` run over all entries — `parse i`
standing for reading entry i and deriving its nodes' FileName parent ids —
(1) the first node of entry 5 is attached under the NTFS root;
(2) every node stored with a parent entry that produced nodes is attached
under that parent entry's first node;
(3) every node stored without a parent (no FileName, or a self-referencing
parent id) is attached under the orphan node;
(4) every node whose stored parent produced no nodes is attached under the
orphan node; and
(5) entry i's stored parents are its parsed parent ids filtered through the
`parent_id != i` guard — a self-parented node (parent id = entry id ≠ 5) is
stored parentless and therefore lands under orphan by (3). -/
theorem c6_tree_linking (parse : Nat → Except NtfsErr (List (Option Nat)))
    (count root orphan : Nat) :
    (∀ ns, alookup (createNodes parse count).1 5 = some ns →
      (root, (ns.headD (none, 0)).2) ∈
        linkNodes (createNodes parse count).1 root orphan) ∧
    (∀ id ns p h, alookup (createNodes parse count).1 id = some ns → id ≠ 5 →
      (some p, h) ∈ ns →
      ∀ ps, alookup (createNodes parse count).1 p = some ps →
        ((ps.headD (none, 0)).2, h) ∈
          linkNodes (createNodes parse count).1 root orphan) ∧
    (∀ id ns h, alookup (createNodes parse count).1 id = some ns → id ≠ 5 →
      (none, h) ∈ ns →
      (orphan, h) ∈ linkNodes (createNodes parse count).1 root orphan) ∧
    (∀ id ns p h, alookup (createNodes parse count).1 id = some ns → id ≠ 5 →
      (some p, h) ∈ ns → alookup (createNodes parse count).1 p = none →
      (orphan, h) ∈ linkNodes (createNodes parse count).1 root orphan) ∧
    (∀ i l, 1 ≤ i → i < count → parse i = .ok l → l ≠ [] →
      ∃ ns, alookup (createNodes parse count).1 i = some ns ∧
        ns.map Prod.fst = l.map (normP i)) := by
  have hinv : cnInv (createNodes parse count) :=
    cnLoop_inv parse (List.range' 1 (count - 1)) ([], 0) cnInv_empty
  obtain ⟨hkeys, hhand, _hbound, hnonempty, hparents⟩ := hinv
  refine ⟨?_, ?_, ?_, ?_, ?_⟩
  · intro ns h5
    have hmem := alookup_mem _ 5 ns h5
    have hne : ns ≠ [] := hnonempty (5, ns) hmem
    have hattach := linkNodes_mem (createNodes parse count).1 root orphan 5 ns
      (ns.headD (none, 0)) hmem (headD_mem ns _ hne)
    simpa [linkOne] using hattach
  · intro id ns p h hlook hid5 hnode ps hps
    have hmem := alookup_mem _ id ns hlook
    have hpmem := alookup_mem _ p ps hps
    have hpne : p ≠ id := hparents (id, ns) hmem (some p, h) hnode p rfl
    have hpsne : ps ≠ [] := hnonempty (p, ps) hpmem
    have hcross := handles_cross (createNodes parse count).1 hkeys hhand id p ns ps
      (fun hh => hpne hh.symm) hlook hps (some p, h) hnode
      (ps.headD (none, 0)) (headD_mem ps _ hpsne)
    have hattach := linkNodes_mem (createNodes parse count).1 root orphan id ns
      (some p, h) hmem hnode
    have heq : linkOne (createNodes parse count).1 id ns root orphan (some p, h) =
        ((ps.headD (none, 0)).2, h) := by
      simp only [linkOne, if_neg hid5]
      rw [hps]
      show (if ps ≠ [] ∧ (ps.headD (none, 0)).2 ≠ h then ((ps.headD (none, 0)).2, h)
            else (orphan, h)) = ((ps.headD (none, 0)).2, h)
      rw [if_pos ⟨hpsne, fun hh => hcross hh.symm⟩]
    rw [heq] at hattach
    exact hattach
  · intro id ns h hlook hid5 hnode
    have hmem := alookup_mem _ id ns hlook
    have hattach := linkNodes_mem (createNodes parse count).1 root orphan id ns
      (none, h) hmem hnode
    simpa [linkOne, if_neg hid5] using hattach
  · intro id ns p h hlook hid5 hnode hpnone
    have hmem := alookup_mem _ id ns hlook
    have hattach := linkNodes_mem (createNodes parse count).1 root orphan id ns
      (some p, h) hmem hnode
    have heq : linkOne (createNodes parse count).1 id ns root orphan (some p, h) =
        (orphan, h) := by
      simp only [linkOne, if_neg hid5]
      rw [hpnone]
    rw [heq] at hattach
    exact hattach
  · intro i l h1 h2 hp hl
    have hmem : i ∈ List.range' 1 (count - 1) := by
      rw [List.mem_range'_1]
      omega
    have hnd : (List.range' 1 (count - 1)).Nodup := List.nodup_range' 1 (count - 1)
    obtain ⟨c, hc⟩ := cnLoop_alookup parse i l hl hp _ ([], 0) hnd hmem rfl
    exact ⟨storedNodes i c l, hc, storedNodes_fst i l c⟩

/-- C6 witness: on a concrete table (entry 5 one node, entry 6 a child of 5,
entry 7 self-parented, others unreadable) the root, parent and orphan
attachments predicted by the theorem are present. -/
theorem c6_witness :
    (100, 0) ∈ linkNodes (createNodes parseC6 9).1 100 200 ∧
    (0, 1) ∈ linkNodes (createNodes parseC6 9).1 100 200 ∧
    (200, 2) ∈ linkNodes (createNodes parseC6 9).1 100 200 ∧
    ∃ ns, alookup (createNodes parseC6 9).1 6 = some ns ∧
      ns.map Prod.fst = [some 5].map (normP 6) :=
  ⟨(c6_tree_linking parseC6 9 100 200).1 [(none, 0)] (by decide),
   (c6_tree_linking parseC6 9 100 200).2.1 6 [(some 5, 1)] 5 1 (by decide)
     (by decide) (by decide) [(none, 0)] (by decide),
   (c6_tree_linking parseC6 9 100 200).2.2.1 7 [(none, 2)] 2 (by decide)
     (by decide) (by decide),
   (c6_tree_linking parseC6 9 100 200).2.2.2.2 6 [some 5] (by decide) (by decide)
     (by decide) (by decide)⟩

/-- C8: the analyze run fails exactly when the boot sector is invalid or the
entry-0 MFT bootstrap fails; and within `create_nodes` every entry index with
a successful parse contributes its nodes to the map no matter how the other
entries fail — a per-entry failure is skipped and never aborts the scan. -/
theorem c8_error_propagation (volume : List Nat) (bitmapLookup : Option (List Nat))
    (fromEntry : Nat → MftEntryM → List (Option Nat)) :
    ((∃ e, pluginRun volume bitmapLookup fromEntry = .error e) ↔
      (∃ e, bootSectorFromFile volume = .error e) ∨
      (∃ bs e, bootSectorFromFile volume = .ok bs ∧
        mftEntriesFromPartition volume bs.bpb.mftLogicalClusterNumber bs.clusterSize
          bs.bpb.bytesPerSector bs.mftRecordSize = .error e)) ∧
    (∀ (parse : Nat → Except NtfsErr (List (Option Nat))) (count i : Nat)
        (l : List (Option Nat)), 1 ≤ i → i < count → parse i = .ok l → l ≠ [] →
      ∃ ns, alookup (createNodes parse count).1 i = some ns ∧
        ns.length = l.length) := by
  constructor
  · constructor
    · cases hb : bootSectorFromFile volume with
      | error e => intro _; exact Or.inl ⟨e, rfl⟩
      | ok bs =>
        cases hm : mftEntriesFromPartition volume bs.bpb.mftLogicalClusterNumber
            bs.clusterSize bs.bpb.bytesPerSector bs.mftRecordSize with
        | error e => intro _; exact Or.inr ⟨bs, e, rfl, hm⟩
        | ok t =>
          rintro ⟨e, he⟩
          simp only [pluginRun, hb, hm] at he
          exact Except.noConfusion he
    · rintro (⟨e, he⟩ | ⟨bs, e, hb, hm⟩)
      · exact ⟨e, by simp [pluginRun, he]⟩
      · exact ⟨e, by simp [pluginRun, hb, hm]⟩
  · intro parse count i l h1 h2 hp hl
    have hmem : i ∈ List.range' 1 (count - 1) := by
      rw [List.mem_range'_1]
      omega
    have hnd : (List.range' 1 (count - 1)).Nodup := List.nodup_range' 1 (count - 1)
    obtain ⟨c, hc⟩ := cnLoop_alookup parse i l hl hp _ ([], 0) hnd hmem rfl
    exact ⟨storedNodes i c l, hc, storedNodes_length i l c⟩

/-- C8 witness: on the empty volume the run fails (boot-sector read), and on
a table where only entry 1 parses, entry 1's node is present in the map. -/
theorem c8_witness :
    (∃ e, pluginRun [] none (fun _ _ => []) = .error e) ∧
    (∃ ns, alookup (createNodes parseC8 2).1 1 = some ns ∧ ns.length = 1) :=
  ⟨(c8_error_propagation [] none (fun _ _ => [])).1.mpr
     (Or.inl ⟨.ioError, by decide⟩),
   (c8_error_propagation [] none (fun _ _ => [])).2 parseC8 2 1 [none] (by decide)
     (by decide) (by decide) (by decide)⟩

/-- C9: the freespace VF of the analyze run concatenates the unallocated
cluster ranges of the $Bitmap stream translated with the multiplier the run
actually passes — `bytes_per_sector`, not
`cluster_size = bytes_per_sector · sectors_per_cluster`; on the bitmap byte
0x2F (unallocated cluster range [4, 4]) with 512-byte sectors and 2 sectors
per cluster the produced range is byte offset 2048 with length 512, whereas
the claimed cluster-size translation yields offset 4096 with length 1024. -/
theorem c9_freespace_multiplier :
    (∀ (volume : List Nat) (bitmapLookup : Option (List Nat))
        (fromEntry : Nat → MftEntryM → List (Option Nat)),
      (pluginRun volume bitmapLookup fromEntry).toOption.map RunOut.freespaceRanges =
        (bootSectorFromFile volume).toOption.bind (fun bs =>
          (mftEntriesFromPartition volume bs.bpb.mftLogicalClusterNumber bs.clusterSize
              bs.bpb.bytesPerSector bs.mftRecordSize).toOption.map (fun _ =>
            bitmapLookup.map (fun bits =>
              freespaceBuilder bits bs.bpb.bytesPerSector)))) ∧
    freespaceBuilder [0x2F] 512 = [FRange.mk 0 512 2048 SrcTag.partition] ∧
    freespaceBuilder [0x2F] (512 * 2) = [FRange.mk 0 1024 4096 SrcTag.partition] := by
  refine ⟨?_, by decide, by decide⟩
  intro volume bitmapLookup fromEntry
  cases hb : bootSectorFromFile volume with
  | error e => simp [pluginRun, hb, Except.toOption]
  | ok bs =>
    cases hm : mftEntriesFromPartition volume bs.bpb.mftLogicalClusterNumber
        bs.clusterSize bs.bpb.bytesPerSector bs.mftRecordSize with
    | error e => simp [pluginRun, hb, hm, Except.toOption]
    | ok t => simp [pluginRun, hb, hm, Except.toOption]

end NtfsProof
